import Mathlib

/-!
# Verification of the PII detection and de-identification core

Shallow embedding of `src/pii_utils.py` and the metrics computation of
`src/Sensitive PII Detection and De-identification/app.py`, together with
proofs settling the specification claims about them.

Modelling conventions:
* Python `str` values are modelled as Lean `String` / `List Char`.
* Python non-negative `int` counters are modelled as `Nat`; where the source
  computes `max(0, a - b)` on `int`, truncated subtraction on `Nat` is the
  exact same function.
* Python `float` division in the metrics is modelled by exact division on `ℚ`
  (the spec states the formulas as exact arithmetic).
* Python dicts used as finite maps are modelled as association lists; keys are
  inserted at most once, so lookup semantics agree with dict semantics.
-/

set_option maxRecDepth 10000

namespace Pii

/-! ## Decimal rendering of counters

Python's f-string `f"user{counter}"` renders the counter in decimal.  `natRepr`
renders a positive natural number in decimal (most significant digit first);
for every `n > 0` this is exactly Python's `str(n)` (the pseudonymizer counter
starts at 1 and only increments, so 0 never occurs). -/

def natReprDigits (fuel n : Nat) : List Nat :=
  match fuel with
  | 0 => []
  | f + 1 => if n = 0 then [] else n % 10 :: natReprDigits f (n / 10)

def natRepr (n : Nat) : String :=
  List.asString ((natReprDigits n n).reverse.map Nat.digitChar)

/-- Left inverse of `Nat.digitChar` on digits below 10. -/
def charToDigit (c : Char) : Nat := c.toNat - 48

/-! ## `EmailPseudonymizer` (pii_utils.py lines 23-27)

```python
class EmailPseudonymizer:
    def __init__(self): self.mapping: Dict[str, str] = {}; self.counter: int = 1
    def pseudonymize(self, local_part: str) -> str:
        if local_part not in self.mapping: self.mapping[local_part] = f"user{self.counter}"; self.counter += 1
        return self.mapping[local_part]
```
Mutation is modelled by returning the updated state; dict insertion appends to
the association list (Python dicts preserve insertion order). -/

structure EmailPseudonymizer where
  mapping : List (String × String)
  counter : Nat
deriving DecidableEq, Repr

def EmailPseudonymizer.init : EmailPseudonymizer := ⟨[], 1⟩

def EmailPseudonymizer.pseudonymize (p : EmailPseudonymizer) (local_part : String) :
    String × EmailPseudonymizer :=
  match p.mapping.lookup local_part with
  | some a => (a, p)
  | none =>
      let aliasStr := "user" ++ natRepr p.counter
      (aliasStr, ⟨p.mapping ++ [(local_part, aliasStr)], p.counter + 1⟩)

/-- Outputs of a sequence of `pseudonymize` calls on one instance. -/
def runPseudo (p : EmailPseudonymizer) : List String → List String
  | [] => []
  | k :: ks => (p.pseudonymize k).1 :: runPseudo (p.pseudonymize k).2 ks

/-- State after a sequence of `pseudonymize` calls. -/
def statePseudo (p : EmailPseudonymizer) : List String → EmailPseudonymizer
  | [] => p
  | k :: ks => statePseudo (p.pseudonymize k).2 ks

/-- Keys of a call sequence in first-seen order, continuing a list of already
seen keys. -/
def seenAfter (seen : List String) : List String → List String
  | [] => seen
  | k :: ks => seenAfter (if k ∈ seen then seen else seen ++ [k]) ks

/-- Keys of a call sequence in first-seen order. -/
def firstSeen (ks : List String) : List String := seenAfter [] ks

/-- The alias table determined by a first-seen list starting at counter
`i + 1`: key number j (0-based) maps to `user(i + j + 1)`. -/
def aliasTableFrom (i : Nat) : List String → List (String × String)
  | [] => []
  | k :: ks => (k, "user" ++ natRepr (i + 1)) :: aliasTableFrom (i + 1) ks

/-- The alias table determined by a first-seen list: the i-th first-seen key
(0-based) maps to `user(i+1)`. -/
def aliasTable (seen : List String) : List (String × String) := aliasTableFrom 0 seen

/-- Index of the first occurrence of a key in a list (length when absent). -/
def idxOf (k : String) : List String → Nat
  | [] => 0
  | a :: rest => if k = a then 0 else idxOf k rest + 1

/-- Left inverse of `natRepr`: parse a decimal digit string. -/
def parseNat (s : String) : Nat :=
  Nat.ofDigits 10 ((s.data.map charToDigit).reverse)

/-! ## Metrics engine (app.py, `Worker._calculate_metrics`, lines 80-99)

```python
found = summary['matches'].get(key, 0)
expected = self.expected_counts.get(key, None)
tp = min(found, expected) if expected is not None else found
fp = max(0, found - expected) if expected is not None else 0
fn = max(0, expected - found) if expected is not None else 0
precision = tp / (tp + fp) if (tp + fp) > 0 else 0.0
recall = tp / (tp + fn) if (tp + fn) > 0 else 0.0
f1 = 2 * (precision * recall) / (precision + recall) if (precision + recall) > 0 else 0.0
risk_level = "N/A"
if expected is not None:
    if tp == 0 and fp > 0: risk_level = "Critical"
    elif tp > 0 and fp == 0: risk_level = "Low"
    elif precision >= 0.8: risk_level = "Medium"
    elif precision >= 0.5: risk_level = "High"
    else: risk_level = "Critical"
```
One entry of the per-category loop. -/

structure MetricEntry where
  found : Nat
  expected : Option Nat
  tp : Nat
  fp : Nat
  falseNeg : Nat
  precision : ℚ
  recallQ : ℚ
  f1 : ℚ
  risk : String
deriving DecidableEq, Repr

def calculate_metrics (found : Nat) (expected : Option Nat) : MetricEntry :=
  let tp : Nat := match expected with | some e => min found e | none => found
  let fp : Nat := match expected with | some e => found - e | none => 0
  let falseNeg : Nat := match expected with | some e => e - found | none => 0
  let precision : ℚ := if tp + fp > 0 then (tp : ℚ) / ((tp : ℚ) + (fp : ℚ)) else 0
  let recallQ : ℚ := if tp + falseNeg > 0 then (tp : ℚ) / ((tp : ℚ) + (falseNeg : ℚ)) else 0
  let f1 : ℚ := if precision + recallQ > 0 then 2 * (precision * recallQ) / (precision + recallQ) else 0
  let risk : String :=
    match expected with
    | none => "N/A"
    | some _ =>
        if tp = 0 ∧ 0 < fp then "Critical"
        else if 0 < tp ∧ fp = 0 then "Low"
        else if (4 : ℚ) / 5 ≤ precision then "Medium"
        else if (1 : ℚ) / 2 ≤ precision then "High"
        else "Critical"
  ⟨found, expected, tp, fp, falseNeg, precision, recallQ, f1, risk⟩

/-- The five risk rules of the spec as an explicit ordered list over
`(tp, fp, precision)`; `riskFirstMatch` evaluates them in order, first match
wins. -/
def riskRules : List (((Nat × Nat × ℚ) → Bool) × String) :=
  [ (fun t => t.1 == 0 && decide (0 < t.2.1), "Critical"),
    (fun t => decide (0 < t.1) && t.2.1 == 0, "Low"),
    (fun t => decide ((4 : ℚ) / 5 ≤ t.2.2), "Medium"),
    (fun t => decide ((1 : ℚ) / 2 ≤ t.2.2), "High"),
    (fun _ => true, "Critical") ]

def riskFirstMatch (tp fp : Nat) (prec : ℚ) : String :=
  match riskRules.find? (fun r => r.1 (tp, fp, prec)) with
  | some r => r.2
  | none => "N/A"

/-! ## Verhoeff validator (pii_utils.py lines 7-18)

```python
def aadhaar_verhoeff(number: str) -> bool:
    try:
        number = re.sub(r"[^0-9]", "", number)
        d_table = [...]; p_table = [...]
        c = 0
        for i, item in enumerate(reversed(number)):
            c = d_table[c][p_table[i % 8][int(item)]]
        return c == 0
    except (ValueError, IndexError):
        return False
```
`re.sub(r"[^0-9]", "", number)` followed by `int(item)` per character is
modelled by `digitsOf`; the `try/except (ValueError, IndexError)` is modelled
by running the table walk in `Option` (a failed list index yields `none`,
mapped to `false`). -/

def d_table : List (List Nat) :=
  [[0,1,2,3,4,5,6,7,8,9],[1,2,3,4,0,6,7,8,9,5],[2,3,4,0,1,7,8,9,5,6],
   [3,4,0,1,2,8,9,5,6,7],[4,0,1,2,3,9,5,6,7,8],[5,9,8,7,6,0,4,3,2,1],
   [6,5,9,8,7,1,0,4,3,2],[7,6,5,9,8,2,1,0,4,3],[8,7,6,5,9,3,2,1,0,4],
   [9,8,7,6,5,4,3,2,1,0]]

def p_table : List (List Nat) :=
  [[0,1,2,3,4,5,6,7,8,9],[1,5,7,6,2,8,3,0,9,4],[5,8,0,3,7,9,6,1,4,2],
   [8,9,1,6,0,4,3,5,2,7],[9,4,5,3,1,2,6,8,7,0],[4,2,8,6,5,7,9,3,0,1],
   [2,7,9,3,8,0,4,6,1,5],[7,0,4,6,9,1,3,2,5,8]]

def tableGet (t : List (List Nat)) (i j : Nat) : Option Nat :=
  (t.get? i).bind (fun row => row.get? j)

/-- The digit values of a string, in order (`[int(c) for c in s if c.isdigit()]`,
equally the digits kept by `re.sub(r"[^0-9]", "", s)`). -/
def digitsOf (s : String) : List Nat :=
  (s.data.filter Char.isDigit).map charToDigit

def verhoeffWalk (c : Nat) (i : Nat) : List Nat → Option Nat
  | [] => some c
  | d :: ds =>
      match tableGet p_table (i % 8) d with
      | none => none
      | some pd =>
          match tableGet d_table c pd with
          | none => none
          | some c' => verhoeffWalk c' (i + 1) ds

def aadhaar_verhoeff (number : String) : Bool :=
  match verhoeffWalk 0 0 (digitsOf number).reverse with
  | some c => c == 0
  | none => false

/-! ## Luhn validator (pii_utils.py lines 84-92)

```python
def luhn_checksum_ok(number: str) -> bool:
    digits = [int(c) for c in number if c.isdigit()]; total = 0
    if not 13 <= len(digits) <= 19: return False
    parity = len(digits) % 2
    for i, d in enumerate(digits):
        if i % 2 == parity: d *= 2
        if d > 9: d -= 9
        total += d
    return total % 10 == 0
```
-/

/-- One digit's contribution: doubled when its (left, 0-based) index has the
given parity; then the unconditional `if d > 9: d -= 9`, exactly as in the
source. -/
def luhnDigit (parity i d : Nat) : Nat :=
  let d1 := if i % 2 = parity then d * 2 else d
  if d1 > 9 then d1 - 9 else d1

def luhnTotal (parity i : Nat) : List Nat → Nat
  | [] => 0
  | d :: ds => luhnDigit parity i d + luhnTotal parity (i + 1) ds

def luhn_checksum_ok (number : String) : Bool :=
  let digits := digitsOf number
  if 13 ≤ digits.length ∧ digits.length ≤ 19 then
    decide (luhnTotal (digits.length % 2) 0 digits % 10 = 0)
  else false

/-- Spec-side Luhn sum: digits given rightmost-first; `dbl` says whether the
head position is doubled.  "Every second digit counting from the right" means
positions 1, 3, 5, ... from the right (0-based) are doubled, so the sum of a
whole number is `luhnSumRight false` of its reversed digit list. -/
def luhnSumRight (dbl : Bool) : List Nat → Nat
  | [] => 0
  | d :: ds =>
      (let d1 := if dbl then d * 2 else d
       if d1 > 9 then d1 - 9 else d1) + luhnSumRight (!dbl) ds

/-- The standard Luhn check digit for a payload (most-significant first): the
digit making the full number's Luhn sum divisible by 10. -/
def luhnCheckDigit (payload : List Nat) : Nat :=
  (10 - luhnSumRight true payload.reverse % 10) % 10

/-! ## XOR obfuscation and base64 (pii_utils.py lines 20-21 and `_apply_mask`)

```python
XOR_KEY = "YourSecretKeyForPIIDetection"
def encrypt_decrypt(text: str, key: str) -> str:
    return "".join(chr(ord(c) ^ ord(k)) for c, k in zip(text, key * (len(text) // len(key) + 1)))
```
Strings are modelled as lists of code points (`ord`/`chr` become the identity
on `Nat`). -/

def XOR_KEY : List Nat := "YourSecretKeyForPIIDetection".data.map Char.toNat

/-- Python string repetition `l * n`. -/
def pyRepeat (l : List Nat) : Nat → List Nat
  | 0 => []
  | n + 1 => l ++ pyRepeat l n

def encrypt_decrypt (text key : List Nat) : List Nat :=
  (text.zip (pyRepeat key (text.length / key.length + 1))).map (fun ck => ck.1 ^^^ ck.2)

/-- UTF-8 encoding of one code point (Python `str.encode()`), as byte values. -/
def utf8Bytes (cp : Nat) : List Nat :=
  if cp < 128 then [cp]
  else if cp < 2048 then [192 + cp / 64, 128 + cp % 64]
  else if cp < 65536 then [224 + cp / 4096, 128 + cp / 64 % 64, 128 + cp % 64]
  else [240 + cp / 262144, 128 + cp / 4096 % 64, 128 + cp / 64 % 64, 128 + cp % 64]

/-- Python `str.encode()`: UTF-8 bytes of a code-point string. -/
def strEncode (codes : List Nat) : List Nat := (codes.map utf8Bytes).flatten

/-- Standard base64 alphabet (`base64.b64encode`). -/
def b64Alphabet : List Char :=
  "ABCDEFGHIJKLMNOPQRSTUVWXYZabcdefghijklmnopqrstuvwxyz0123456789+/".data

def b64Char (n : Nat) : Char := b64Alphabet.getD n '?'

/-- `base64.b64encode` on a byte list, producing the base64 character string
(3 bytes to 4 characters, `=`-padded). -/
def b64encode : List Nat → List Char
  | [] => []
  | [a] => [b64Char (a / 4), b64Char (a % 4 * 16), '=', '=']
  | [a, b] => [b64Char (a / 4), b64Char (a % 4 * 16 + b / 16), b64Char (b % 16 * 4), '=']
  | a :: b :: c :: rest =>
      b64Char (a / 4) :: b64Char (a % 4 * 16 + b / 16) :: b64Char (b % 16 * 4 + c / 64) ::
        b64Char (c % 64) :: b64encode rest

def b64Index (c : Char) : Option Nat := b64Alphabet.indexOf? c

/-- `base64.b64decode`: inverse of `b64encode`, `none` on malformed input. -/
def b64decode : List Char → Option (List Nat)
  | [] => some []
  | w :: x :: y :: z :: rest =>
      match b64Index w, b64Index x with
      | some a, some b =>
          if y = '=' then
            if z = '=' ∧ rest = [] then some [a * 4 + b / 16] else none
          else
            match b64Index y with
            | some c =>
                if z = '=' then
                  if rest = [] then some [a * 4 + b / 16, b % 16 * 16 + c / 4] else none
                else
                  match b64Index z with
                  | some d =>
                      (b64decode rest).map
                        (fun t => (a * 4 + b / 16) :: (b % 16 * 16 + c / 4) :: (c % 4 * 64 + d) :: t)
                  | none => none
            | none => none
      | _, _ => none
  | _ => none

/-! ## SHA-256 (`hashlib.sha256(...).hexdigest()`)

The `hash` strategy of `_apply_mask` calls Python's `hashlib.sha256` on the
UTF-8 bytes of the match and renders the digest as lowercase hex.  The standard
algorithm (FIPS 180-4) is embedded over `Nat` with explicit `% 2^32`.  No claim
depends on the digest value; the definition is included so that `_apply_mask`
is embedded whole. -/

def M32 : Nat := 4294967296

def rotr32 (n x : Nat) : Nat := ((x >>> n) + (x <<< (32 - n))) % M32

def sha256K : List Nat :=
  [1116352408, 1899447441, 3049323471, 3921009573, 961987163, 1508970993,
   2453635748, 2870763221, 3624381080, 310598401, 607225278, 1426881987,
   1925078388, 2162078206, 2614888103, 3248222580, 3835390401, 4022224774,
   264347078, 604807628, 770255983, 1249150122, 1555081692, 1996064986,
   2554220882, 2821834349, 2952996808, 3210313671, 3336571891, 3584528711,
   113926993, 338241895, 666307205, 773529912, 1294757372, 1396182291,
   1695183700, 1986661051, 2177026350, 2456956037, 2730485921, 2820302411,
   3259730800, 3345764771, 3516065817, 3600352804, 4094571909, 275423344,
   430227734, 506948616, 659060556, 883997877, 958139571, 1322822218,
   1537002063, 1747873779, 1955562222, 2024104815, 2227730452, 2361852424,
   2428436474, 2756734187, 3204031479, 3329325298]

def sha256H0 : List Nat :=
  [1779033703, 3144134277, 1013904242, 2773480762, 1359893119, 2600822924,
   528734635, 1541459225]

/-- Message padding: append `0x80`, zero-pad to 56 mod 64, append the 8-byte
big-endian bit length. -/
def sha256Pad (msg : List Nat) : List Nat :=
  let len := msg.length
  let padLen := (55 + 64 - len % 64) % 64 + 1
  let bitLen := len * 8
  msg ++ (128 :: List.replicate (padLen - 1) 0) ++
    [bitLen / 72057594037927936 % 256, bitLen / 281474976710656 % 256,
     bitLen / 1099511627776 % 256, bitLen / 4294967296 % 256,
     bitLen / 16777216 % 256, bitLen / 65536 % 256, bitLen / 256 % 256, bitLen % 256]

/-- Group a byte list into big-endian 32-bit words. -/
def bytesToWords : List Nat → List Nat
  | a :: b :: c :: d :: rest => (a * 16777216 + b * 65536 + c * 256 + d) :: bytesToWords rest
  | _ => []

/-- Split a word list into 16-word blocks. -/
def toBlocks (ws : List Nat) : List (List Nat) :=
  if ws = [] then [] else ws.take 16 :: toBlocks (ws.drop 16)
termination_by ws.length
decreasing_by
  have h1 : 0 < ws.length := List.length_pos.mpr ‹¬ws = []›
  simp only [List.length_drop]
  omega

def smallSigma0 (x : Nat) : Nat := (rotr32 7 x).xor ((rotr32 18 x).xor (x >>> 3))

def smallSigma1 (x : Nat) : Nat := (rotr32 17 x).xor ((rotr32 19 x).xor (x >>> 10))

def bigSigma0 (x : Nat) : Nat := (rotr32 2 x).xor ((rotr32 13 x).xor (rotr32 22 x))

def bigSigma1 (x : Nat) : Nat := (rotr32 6 x).xor ((rotr32 11 x).xor (rotr32 25 x))

/-- Extend a 16-word block to the 64-word message schedule. -/
def sha256Extend (w : List Nat) : Nat → List Nat
  | 0 => w
  | n + 1 =>
      let t := w.length
      let nw := (smallSigma1 (w.getD (t - 2) 0) + w.getD (t - 7) 0 +
                 smallSigma0 (w.getD (t - 15) 0) + w.getD (t - 16) 0) % M32
      sha256Extend (w ++ [nw]) n

/-- One round of the compression function. -/
def sha256Round (st : List Nat) (kw : Nat × Nat) : List Nat :=
  match st with
  | [a, b, c, d, e, f, g, h] =>
      let t1 := (h + bigSigma1 e + ((e.land f).xor ((e.xor 4294967295).land g)) +
                 kw.1 + kw.2) % M32
      let t2 := (bigSigma0 a + ((a.land b).xor ((a.land c).xor (b.land c)))) % M32
      [(t1 + t2) % M32, a, b, c, (d + t1) % M32, e, f, g]
  | other => other

/-- Process one 16-word block against the running hash value. -/
def sha256Block (h : List Nat) (block : List Nat) : List Nat :=
  let w := sha256Extend block 48
  let st := (sha256K.zip w).foldl sha256Round h
  (h.zip st).map (fun p => (p.1 + p.2) % M32)

def hexDigit (n : Nat) : Char := "0123456789abcdef".data.getD n '0'

/-- Lowercase hex rendering of one 32-bit word (8 hex digits). -/
def wordToHex (x : Nat) : List Char :=
  [hexDigit (x / 268435456 % 16), hexDigit (x / 16777216 % 16),
   hexDigit (x / 1048576 % 16), hexDigit (x / 65536 % 16),
   hexDigit (x / 4096 % 16), hexDigit (x / 256 % 16),
   hexDigit (x / 16 % 16), hexDigit (x % 16)]

/-- Embeds `hashlib.sha256(bytes).hexdigest()` over a byte list. -/
def sha256Hex (msg : List Nat) : List Char :=
  let finalH := (toBlocks (bytesToWords (sha256Pad msg))).foldl sha256Block sha256H0
  (finalH.map wordToHex).flatten

/-! ## Regex engine

The ten detection patterns are compiled regular expressions scanned with
Python `re` semantics: leftmost match wins, alternatives are tried left to
right, repetition is greedy with backtracking.  The engine below implements
exactly these semantics for the constructs the ten patterns use: character
classes, concatenation, alternation, greedy star, greedy option (as
alternation with the empty regex), capturing groups, and the `\b` assertion.
Matching runs in continuation-passing style with a fuel argument; fuel bounds
the depth of the search tree, and callers pass enough fuel that it is never
exhausted on the inputs considered. -/

/-- Capture list: group number paired with captured characters, most recent
first (Python keeps the last repetition of a repeated group; lookup from the
front returns it). -/
abbrev Caps := List (Nat × List Char)

inductive RE where
  | eps : RE
  | cls (f : Char → Bool) : RE
  | seq (a b : RE) : RE
  | alt (a b : RE) : RE
  | star (a : RE) : RE
  | group (n : Nat) (a : RE) : RE
  | wordB : RE

/-- Python `\w` (ASCII range; all texts considered are ASCII). -/
def isWordChar (c : Char) : Bool := c.isAlphanum || c == '_'

def headIsWord (l : List Char) : Bool :=
  match l with
  | [] => false
  | c :: _ => isWordChar c

/-- Core matcher.  `pre` is the reversed text before the current position
(needed by `\b`), `suf` the text from the current position on.  The
continuation receives the updated `pre`, `suf` and captures.  Alternation and
star try the greedy/left branch first and backtrack into the continuation,
exactly as Python's backtracking engine does; a star never repeats an empty
match (Python's empty-repetition rule). -/
def mrun {α : Type} : Nat → RE → List Char → List Char → Caps →
    (List Char → List Char → Caps → Option α) → Option α
  | 0, _, _, _, _, _ => none
  | fuel + 1, re, pre, suf, caps, k =>
    match re with
    | .eps => k pre suf caps
    | .cls f =>
        match suf with
        | [] => none
        | c :: rest => if f c then k (c :: pre) rest caps else none
    | .seq a b =>
        mrun fuel a pre suf caps (fun pre1 suf1 caps1 => mrun fuel b pre1 suf1 caps1 k)
    | .alt a b =>
        match mrun fuel a pre suf caps k with
        | some r => some r
        | none => mrun fuel b pre suf caps k
    | .star a =>
        match mrun fuel a pre suf caps (fun pre1 suf1 caps1 =>
                if suf1.length < suf.length then mrun fuel (.star a) pre1 suf1 caps1 k
                else none) with
        | some r => some r
        | none => k pre suf caps
    | .group n a =>
        mrun fuel a pre suf caps (fun pre1 suf1 caps1 =>
          k pre1 suf1 ((n, (pre1.take (pre1.length - pre.length)).reverse) :: caps1))
    | .wordB =>
        if headIsWord pre ≠ headIsWord suf then k pre suf caps else none

/-- Anchored match attempt at the current position; on success returns the
consumed characters, the remaining suffix and the captures. -/
def tryMatchAt (fuel : Nat) (re : RE) (pre suf : List Char) :
    Option (List Char × List Char × Caps) :=
  mrun fuel re pre suf [] (fun pre1 suf1 caps1 =>
    some ((pre1.take (pre1.length - pre.length)).reverse, suf1, caps1))

/-- Fuel passed to the matcher: enough for the search tree over the ten
patterns on any suffix (tree depth is bounded by the pattern size plus the
characters a star chain can consume). -/
def matcherFuel (suf : List Char) : Nat := 2 * suf.length + 200

/-- Embeds Python `pattern.sub(repl, text)` together with the handlers'
counting: scan left to right, at each position try an anchored match; on a
match, apply `repl` to the matched substring and its captures, emit the
replacement, add its count, and continue after the match (advancing one
character when the match is empty, as Python does); on no match, emit the
character and move on.  The state `σ` threads the run-context mutations
performed by replacement callbacks, in the order the callbacks fire. -/
def subScan {σ : Type} : Nat → RE → (List Char → Caps → σ → List Char × Nat × σ) →
    List Char → List Char → σ → List Char × Nat × σ
  | 0, _, _, _, suf, st => (suf, 0, st)
  | fuel + 1, re, repl, pre, suf, st =>
    match tryMatchAt (matcherFuel suf) re pre suf with
    | some (consumed, rest, caps) =>
        let rd := repl consumed caps st
        match consumed with
        | [] =>
            match suf with
            | [] => (rd.1, rd.2.1, rd.2.2)
            | c :: cs =>
                let out := subScan fuel re repl (c :: pre) cs rd.2.2
                (rd.1 ++ c :: out.1, rd.2.1 + out.2.1, out.2.2)
        | _ :: _ =>
            let out := subScan fuel re repl (consumed.reverse ++ pre) rest rd.2.2
            (rd.1 ++ out.1, rd.2.1 + out.2.1, out.2.2)
    | none =>
        match suf with
        | [] => ([], 0, st)
        | c :: cs =>
            let out := subScan fuel re repl (c :: pre) cs st
            (c :: out.1, out.2.1, out.2.2)

/-- The matches (with captures) the scan of `subScan` visits, in order; this
does not depend on the replacement callback, mirroring that `re.sub` scans the
original text only. -/
def scanAll : Nat → RE → List Char → List Char → List (List Char × Caps)
  | 0, _, _, _ => []
  | fuel + 1, re, pre, suf =>
    match tryMatchAt (matcherFuel suf) re pre suf with
    | some (consumed, rest, caps) =>
        match consumed with
        | [] =>
            match suf with
            | [] => [([], caps)]
            | c :: cs => ([], caps) :: scanAll fuel re (c :: pre) cs
        | _ :: _ => (consumed, caps) :: scanAll fuel re (consumed.reverse ++ pre) rest
    | none =>
        match suf with
        | [] => []
        | c :: cs => scanAll fuel re (c :: pre) cs

/-- Python `pattern.sub` / `pattern.subn` over a whole text, with counting and
state threading. -/
def pySub {σ : Type} (re : RE) (repl : List Char → Caps → σ → List Char × Nat × σ)
    (text : List Char) (st : σ) : List Char × Nat × σ :=
  subScan (text.length + 1) re repl [] text st

/-- All matches of a pattern in a text, in scan order. -/
def findMatches (re : RE) (text : List Char) : List (List Char × Caps) :=
  scanAll (text.length + 1) re [] text

/-! ### The ten default patterns (pii_utils.py lines 32-41) -/

/-- Concatenation of a list of regexes. -/
def cat (l : List RE) : RE := l.foldr RE.seq RE.eps

def chr (c : Char) : RE := .cls (fun x => x == c)

def oneOf (s : String) : RE := .cls (fun x => s.data.contains x)

def charRange (lo hi : Char) : RE :=
  .cls (fun x => lo.toNat ≤ x.toNat && x.toNat ≤ hi.toNat)

/-- Greedy `r{n}`. -/
def rep (n : Nat) (r : RE) : RE := cat (List.replicate n r)

/-- Greedy `r{n,}`. -/
def atLeast (n : Nat) (r : RE) : RE := .seq (rep n r) (.star r)

/-- Greedy `r?` (try the present branch first, as Python does). -/
def opt (r : RE) : RE := .alt r .eps

def digitCls : RE := .cls Char.isDigit

def upperCls : RE := charRange 'A' 'Z'

def lowerCls : RE := charRange 'a' 'z'

/-- Python `\s` (ASCII range). -/
def spaceCls : RE := oneOf " \t\n\r\x0b\x0c"

/-- `\b[2-9]\d{3}[ -]?\d{4}[ -]?\d{4}\b` -/
def AADHAAR_PATTERN : RE :=
  cat [.wordB, charRange '2' '9', rep 3 digitCls, opt (oneOf " -"), rep 4 digitCls,
       opt (oneOf " -"), rep 4 digitCls, .wordB]

/-- `\b([A-Z]{5}\d{4}[A-Z])\b` -/
def PAN_PATTERN : RE :=
  cat [.wordB, .group 1 (cat [rep 5 upperCls, rep 4 digitCls, upperCls]), .wordB]

/-- `\b(\d{4}[- ]?\d{4}[- ]?\d{4}[- ]?\d{4})\b` -/
def CREDIT_CARD_PATTERN : RE :=
  cat [.wordB, .group 1 (cat [rep 4 digitCls, opt (oneOf "- "), rep 4 digitCls,
       opt (oneOf "- "), rep 4 digitCls, opt (oneOf "- "), rep 4 digitCls]), .wordB]

def emailLocalCls : RE :=
  .cls (fun c => c.isAlpha || c.isDigit || "._%+-".data.contains c)

def emailDomainCls : RE :=
  .cls (fun c => c.isAlpha || c.isDigit || ".-".data.contains c)

/-- `\b([A-Za-z0-9._%+-]+@([A-Za-z0-9.-]+\.[A-Za-z]{2,}))\b` -/
def EMAIL_PATTERN : RE :=
  cat [.wordB, .group 1 (cat [atLeast 1 emailLocalCls, chr '@',
       .group 2 (cat [atLeast 1 emailDomainCls, chr '.',
                      atLeast 2 (.cls Char.isAlpha)])]), .wordB]

/-- `\b([A-Z]\d{7})\b` -/
def PASSPORT_PATTERN : RE :=
  cat [.wordB, .group 1 (cat [upperCls, rep 7 digitCls]), .wordB]

/-- `\b(([A-Z]{2})-?(\d{13}))\b` -/
def DRIVING_LICENSE_PATTERN : RE :=
  cat [.wordB, .group 1 (cat [.group 2 (rep 2 upperCls), opt (chr '-'),
       .group 3 (rep 13 digitCls)]), .wordB]

/-- `\b(?:\+91[\s-]?)?([6-9]\d{9})\b` -/
def PHONE_PATTERN : RE :=
  cat [.wordB, opt (cat [chr '+', chr '9', chr '1',
       opt (.cls (fun c => " \t\n\r\x0b\x0c".data.contains c || c == '-'))]),
       .group 1 (cat [charRange '6' '9', rep 9 digitCls]), .wordB]

/-- `\b([A-Z][a-z]{2,}(?:\s[A-Z][a-z]{2,})+)\b` -/
def PERSON_PATTERN : RE :=
  cat [.wordB, .group 1 (cat [upperCls, atLeast 2 lowerCls,
       atLeast 1 (cat [spaceCls, upperCls, atLeast 2 lowerCls])]), .wordB]

/-- `\b([A-Z]{3}\d{7})\b` -/
def VOTER_ID_PATTERN : RE :=
  cat [.wordB, .group 1 (cat [rep 3 upperCls, rep 7 digitCls]), .wordB]

/-! ## Run context and mask configuration

The run context is a Python dict created as `{}` at batch start; the only keys
the code ever inserts are `'email_anonymizer'` and `'person_anonymizer'`
(via `dict.setdefault`), modelled as two optional fields.  Python's truthiness
test `if context and isinstance(context, dict)` is true exactly when the
context is a dict with at least one key. -/

structure RunCtx where
  email_anonymizer : Option EmailPseudonymizer := none
  person_anonymizer : Option EmailPseudonymizer := none
deriving DecidableEq, Repr

/-- Python truthiness of the context dict (nonempty). -/
def RunCtx.truthy (c : RunCtx) : Bool :=
  c.email_anonymizer.isSome || c.person_anonymizer.isSome

/-- MaskConfig (pii_utils.py lines 70-71); `strategy` and `char` carry the
handlers' `kwargs.get` defaults (`"partial"`, `'*'`).  The mask character is a
single character as supplied by the UI. -/
structure MaskConfig where
  enabled : Bool
  strategy : String := "partial"
  char : Char := '*'
deriving DecidableEq, Repr

/-- Embeds the DOB pattern: `\b` , then a group alternating a day-first date
(2 digits, slash-or-dash, 2 digits, slash-or-dash, 4 digits) with a year-first
date (4 digits, slash-or-dash, 2 digits, slash-or-dash, 2 digits), then `\b`. -/
def DOB_PATTERN : RE :=
  cat [.wordB, .group 1 (.alt
       (cat [rep 2 digitCls, oneOf "/-", rep 2 digitCls, oneOf "/-", rep 4 digitCls])
       (cat [rep 4 digitCls, oneOf "/-", rep 2 digitCls, oneOf "/-", rep 2 digitCls])),
       .wordB]

/-! ## Category handlers (pii_utils.py lines 94-207)

Each Python handler builds a closure `repl(m)` over `kwargs` and substitutes
it over the text with `p.sub`/`p.subn`.  Here each handler is a `pySub` of an
explicit replacement callback taking the matched characters, the captures and
the (optional) run context.  The callback returns the replacement, the amount
added to the handler's count for this match (`subn` counts every match; the
aadhaar and card handlers count only checksum-passing matches), and the
context state after the callback. -/

/-- Python `s.rsplit(sep, 1)` for a separator known to occur: characters
before the last `sep`, and characters after it. -/
def rsplitLast (sep : Char) (l : List Char) : List Char × List Char :=
  let rev := l.reverse
  ((rev.dropWhile (fun c => !(c == sep))).drop 1 |>.reverse,
   (rev.takeWhile (fun c => !(c == sep))).reverse)

/-- Helper of `splitWs`: `acc` holds the reversed current token. -/
def splitWsAux : List Char → List Char → List (List Char)
  | [], acc => if acc = [] then [] else [acc.reverse]
  | c :: rest, acc =>
      if " \t\n\r\x0b\x0c".data.contains c then
        (if acc = [] then [] else [acc.reverse]) ++ splitWsAux rest []
      else splitWsAux rest (c :: acc)

/-- Python `str.split()` with no argument: split on whitespace runs, dropping
empty pieces. -/
def splitWs (l : List Char) : List (List Char) := splitWsAux l []

/-- Python `" ".join(parts)`. -/
def joinSpace : List (List Char) → List Char
  | [] => []
  | [p] => p
  | p :: ps => p ++ ' ' :: joinSpace ps

/-- Embeds `_apply_mask` (pii_utils.py lines 73-82).  `partialRes` is the value
`partial_mask_func(m)` would produce paired with the context state after that
callback (only the email and person partial callbacks touch the context); it
is used only when `strategy == "partial"`:

```python
def _apply_mask(m, strategy, mask_char, pii_type, partial_mask_func):
    original_text = m.group(0)
    if strategy == "partial": return partial_mask_func(m)
    if strategy == "full": return mask_char * len(original_text)
    if strategy == "hash": return hashlib.sha256(original_text.encode()).hexdigest()
    if strategy == "encrypt":
        encrypted = encrypt_decrypt(original_text, XOR_KEY)
        return base64.b64encode(encrypted.encode()).decode()
    if strategy == "redact": return f"[<TYPE>_REDACTED]"
    return original_text
```
-/
def _apply_mask (original : List Char) (strategy : String) (mask_char : Char)
    (pii_type : String) (partialRes : List Char × Option RunCtx)
    (ctx : Option RunCtx) : List Char × Option RunCtx :=
  if strategy = "partial" then partialRes
  else if strategy = "full" then (List.replicate original.length mask_char, ctx)
  else if strategy = "hash" then (sha256Hex (strEncode (original.map Char.toNat)), ctx)
  else if strategy = "encrypt" then
    (b64encode (strEncode (encrypt_decrypt (original.map Char.toNat) XOR_KEY)), ctx)
  else if strategy = "redact" then
    ('[' :: pii_type.toUpper.data ++ "_REDACTED]".data, ctx)
  else (original, ctx)

/-- Replacement callback of `mask_aadhaar` (lines 96-102): strip non-digits;
if the digit count is not 12 or Verhoeff fails, pass the match through
unmodified and uncounted; otherwise count it and apply the strategy (partial
shape `first4-mask*4-last4`). -/
def aadhaarRepl (strategy : String) (mask_char : Char) (m : List Char)
    (_caps : Caps) (ctx : Option RunCtx) : List Char × Nat × Option RunCtx :=
  let raw := m.filter Char.isDigit
  if raw.length ≠ 12 ∨ aadhaar_verhoeff (String.mk raw) = false then (m, 0, ctx)
  else
    let partialRes := (raw.take 4 ++ '-' :: List.replicate 4 mask_char ++ '-' :: raw.drop 8,
                       ctx)
    let om := _apply_mask m strategy mask_char "Aadhaar" partialRes ctx
    (om.1, 1, om.2)

def mask_aadhaar (text : String) (re? : Option RE) (strategy : String) (mask_char : Char)
    (ctx : Option RunCtx) : String × Nat × Option RunCtx :=
  let out := pySub (re?.getD AADHAAR_PATTERN) (aadhaarRepl strategy mask_char) text.data ctx
  (String.mk out.1, out.2.1, out.2.2)

/-- Synthetic PAN of `anonymize_pan` (lines 109-112).  Python draws the
characters from the process-global `random` generator, which is outside the
embedded core; modelled as a fixed representative of the same shape
(consonant, vowel, consonant, vowel, consonant, four digits, letter) — no
verified property depends on the sampled value. -/
def generate_synthetic_pan : List Char := "BABAB0000A".data

def panRepl (strategy : String) (mask_char : Char) (m : List Char)
    (_caps : Caps) (ctx : Option RunCtx) : List Char × Nat × Option RunCtx :=
  let om := _apply_mask m strategy mask_char "PAN" (generate_synthetic_pan, ctx) ctx
  (om.1, 1, om.2)

def anonymize_pan (text : String) (re? : Option RE) (strategy : String) (mask_char : Char)
    (ctx : Option RunCtx) : String × Nat × Option RunCtx :=
  let out := pySub (re?.getD PAN_PATTERN) (panRepl strategy mask_char) text.data ctx
  (String.mk out.1, out.2.1, out.2.2)

/-- Replacement callback of `mask_credit_cards` (lines 123-129): Luhn-failing
matches pass through unmodified and uncounted; partial shape
`mask*4-mask*4-mask*4-last4`. -/
def cardRepl (strategy : String) (mask_char : Char) (m : List Char)
    (_caps : Caps) (ctx : Option RunCtx) : List Char × Nat × Option RunCtx :=
  let raw := m.filter Char.isDigit
  if luhn_checksum_ok (String.mk raw) = false then (m, 0, ctx)
  else
    let partialRes := (List.replicate 4 mask_char ++ '-' :: List.replicate 4 mask_char ++
                       '-' :: List.replicate 4 mask_char ++ '-' :: raw.drop (raw.length - 4),
                       ctx)
    let om := _apply_mask m strategy mask_char "Credit Card" partialRes ctx
    (om.1, 1, om.2)

def mask_credit_cards (text : String) (re? : Option RE) (strategy : String)
    (mask_char : Char) (ctx : Option RunCtx) : String × Nat × Option RunCtx :=
  let out := pySub (re?.getD CREDIT_CARD_PATTERN) (cardRepl strategy mask_char) text.data ctx
  (String.mk out.1, out.2.1, out.2.2)

/-- Replacement callback of `pseudo_email` (lines 134-144).  The partial shape
takes `m.group(1)`, splits at the last `@`; with a truthy dict context it
pseudonymizes the local part through the context's `email_anonymizer`
(`dict.setdefault` creates it on first use), otherwise the local part becomes
the literal `user`. -/
def emailRepl (strategy : String) (mask_char : Char) (m : List Char)
    (caps : Caps) (ctx : Option RunCtx) : List Char × Nat × Option RunCtx :=
  let partialRes : List Char × Option RunCtx :=
    let full_email := (caps.lookup 1).getD []
    if full_email.contains '@' = false then ("Invalid Email Match: ".data ++ full_email, ctx)
    else
      let ld := rsplitLast '@' full_email
      match ctx with
      | some c =>
          if c.truthy then
            let anonymizer := c.email_anonymizer.getD EmailPseudonymizer.init
            let ap := anonymizer.pseudonymize (String.mk ld.1)
            (ap.1.data ++ '@' :: ld.2, some { c with email_anonymizer := some ap.2 })
          else ("user@".data ++ ld.2, ctx)
      | none => ("user@".data ++ ld.2, ctx)
  let om := _apply_mask m strategy mask_char "Email" partialRes ctx
  (om.1, 1, om.2)

def pseudo_email (text : String) (re? : Option RE) (strategy : String) (mask_char : Char)
    (ctx : Option RunCtx) : String × Nat × Option RunCtx :=
  let out := pySub (re?.getD EMAIL_PATTERN) (emailRepl strategy mask_char) text.data ctx
  (String.mk out.1, out.2.1, out.2.2)

/-- Replacement callback of `mask_passport` (lines 149-153): partial keeps the
first character and masks the rest. -/
def passportRepl (strategy : String) (mask_char : Char) (m : List Char)
    (_caps : Caps) (ctx : Option RunCtx) : List Char × Nat × Option RunCtx :=
  let partialRes := (m.take 1 ++ List.replicate (m.length - 1) mask_char, ctx)
  let om := _apply_mask m strategy mask_char "Passport" partialRes ctx
  (om.1, 1, om.2)

def mask_passport (text : String) (re? : Option RE) (strategy : String) (mask_char : Char)
    (ctx : Option RunCtx) : String × Nat × Option RunCtx :=
  let out := pySub (re?.getD PASSPORT_PATTERN) (passportRepl strategy mask_char) text.data ctx
  (String.mk out.1, out.2.1, out.2.2)

/-- Replacement callback of `mask_driving_license` (lines 158-162): partial
keeps the two-letter state code (group 2) and masks to fixed width 14, or
passes the match through when the group is absent. -/
def dlRepl (strategy : String) (mask_char : Char) (m : List Char)
    (caps : Caps) (ctx : Option RunCtx) : List Char × Nat × Option RunCtx :=
  let state_code := (caps.lookup 2).getD []
  let partialRes := (if state_code ≠ [] then state_code ++ List.replicate 14 mask_char else m,
                     ctx)
  let om := _apply_mask m strategy mask_char "Driving License" partialRes ctx
  (om.1, 1, om.2)

def mask_driving_license (text : String) (re? : Option RE) (strategy : String)
    (mask_char : Char) (ctx : Option RunCtx) : String × Nat × Option RunCtx :=
  let out := pySub (re?.getD DRIVING_LICENSE_PATTERN) (dlRepl strategy mask_char) text.data ctx
  (String.mk out.1, out.2.1, out.2.2)

/-- Replacement callback of `mask_phone` (lines 167-171): partial keeps the
first 2 and last 2 of the last 10 digits, middle masked with 6 mask
characters. -/
def phoneRepl (strategy : String) (mask_char : Char) (m : List Char)
    (_caps : Caps) (ctx : Option RunCtx) : List Char × Nat × Option RunCtx :=
  let digitsAll := m.filter Char.isDigit
  let raw := digitsAll.drop (digitsAll.length - 10)
  let partialRes := (raw.take 2 ++ List.replicate 6 mask_char ++ raw.drop (raw.length - 2),
                     ctx)
  let om := _apply_mask m strategy mask_char "Phone" partialRes ctx
  (om.1, 1, om.2)

def mask_phone (text : String) (re? : Option RE) (strategy : String) (mask_char : Char)
    (ctx : Option RunCtx) : String × Nat × Option RunCtx :=
  let out := pySub (re?.getD PHONE_PATTERN) (phoneRepl strategy mask_char) text.data ctx
  (String.mk out.1, out.2.1, out.2.2)

/-- Pseudonymize a list of name tokens left to right, threading the
pseudonymizer state (the order Python's generator inside `" ".join` fires). -/
def mapPseudo (a : EmailPseudonymizer) : List (List Char) →
    List (List Char) × EmailPseudonymizer
  | [] => ([], a)
  | p :: ps =>
      let sp := a.pseudonymize (String.mk p)
      let rest := mapPseudo sp.2 ps
      (sp.1.data :: rest.1, rest.2)

/-- Fallback shape of `mask_person` without a context: first letter plus mask
characters for the remaining letters of a token. -/
def maskToken (mask_char : Char) : List Char → List Char
  | [] => []
  | c :: rest => c :: List.replicate rest.length mask_char

/-- Replacement callback of `mask_person` (lines 176-184): split the match on
whitespace; with a truthy dict context pseudonymize every token through the
context's `person_anonymizer`, otherwise apply the first-letter fallback. -/
def personRepl (strategy : String) (mask_char : Char) (m : List Char)
    (_caps : Caps) (ctx : Option RunCtx) : List Char × Nat × Option RunCtx :=
  let parts := splitWs m
  let partialRes : List Char × Option RunCtx :=
    match ctx with
    | some c =>
        if c.truthy then
          let anonymizer := c.person_anonymizer.getD EmailPseudonymizer.init
          let oa := mapPseudo anonymizer parts
          (joinSpace oa.1, some { c with person_anonymizer := some oa.2 })
        else (joinSpace (parts.map (maskToken mask_char)), ctx)
    | none => (joinSpace (parts.map (maskToken mask_char)), ctx)
  let om := _apply_mask m strategy mask_char "Person" partialRes ctx
  (om.1, 1, om.2)

def mask_person (text : String) (re? : Option RE) (strategy : String) (mask_char : Char)
    (ctx : Option RunCtx) : String × Nat × Option RunCtx :=
  let out := pySub (re?.getD PERSON_PATTERN) (personRepl strategy mask_char) text.data ctx
  (String.mk out.1, out.2.1, out.2.2)

/-- Synthetic voter id of `mask_voter_id` (lines 190-191); like
`generate_synthetic_pan`, the randomness is modelled by a fixed representative
of the shape (three letters, seven digits). -/
def generate_synthetic_voter_id : List Char := "AAA0000000".data

def voterRepl (strategy : String) (mask_char : Char) (m : List Char)
    (_caps : Caps) (ctx : Option RunCtx) : List Char × Nat × Option RunCtx :=
  let om := _apply_mask m strategy mask_char "VoterID" (generate_synthetic_voter_id, ctx) ctx
  (om.1, 1, om.2)

def mask_voter_id (text : String) (re? : Option RE) (strategy : String) (mask_char : Char)
    (ctx : Option RunCtx) : String × Nat × Option RunCtx :=
  let out := pySub (re?.getD VOTER_ID_PATTERN) (voterRepl strategy mask_char) text.data ctx
  (String.mk out.1, out.2.1, out.2.2)

/-- Replacement callback of `mask_dob` (lines 201-205): partial masks the
whole match to its own length. -/
def dobRepl (strategy : String) (mask_char : Char) (m : List Char)
    (_caps : Caps) (ctx : Option RunCtx) : List Char × Nat × Option RunCtx :=
  let om := _apply_mask m strategy mask_char "DOB" (List.replicate m.length mask_char, ctx) ctx
  (om.1, 1, om.2)

def mask_dob (text : String) (re? : Option RE) (strategy : String) (mask_char : Char)
    (ctx : Option RunCtx) : String × Nat × Option RunCtx :=
  let out := pySub (re?.getD DOB_PATTERN) (dobRepl strategy mask_char) text.data ctx
  (String.mk out.1, out.2.1, out.2.2)

/-! ## Record processor (`process_text`, pii_utils.py lines 225-233) -/

/-- The ten PII categories, the keys of `PII_HANDLERS`. -/
inductive CatKey where
  | aadhaar | pan | credit_card | email | passport
  | driving_license | phone | person | voter_id | dob
deriving DecidableEq, Repr

/-- Iteration order of `PII_HANDLERS` (Python dict insertion order). -/
def catOrder : List CatKey :=
  [.aadhaar, .pan, .credit_card, .email, .passport,
   .driving_license, .phone, .person, .voter_id, .dob]

/-- DetectionCounts (pii_utils.py lines 29-31): the per-category counters,
initialized to 0 (`{key: 0 for key in PII_HANDLERS}`). -/
structure DetectionCounts where
  aadhaar : Nat := 0
  pan : Nat := 0
  credit_card : Nat := 0
  email : Nat := 0
  passport : Nat := 0
  driving_license : Nat := 0
  phone : Nat := 0
  person : Nat := 0
  voter_id : Nat := 0
  dob : Nat := 0
deriving DecidableEq, Repr

def countsZero : DetectionCounts := {}

def getCount (c : DetectionCounts) : CatKey → Nat
  | .aadhaar => c.aadhaar
  | .pan => c.pan
  | .credit_card => c.credit_card
  | .email => c.email
  | .passport => c.passport
  | .driving_license => c.driving_license
  | .phone => c.phone
  | .person => c.person
  | .voter_id => c.voter_id
  | .dob => c.dob

def addCount (c : DetectionCounts) (k : CatKey) (n : Nat) : DetectionCounts :=
  match k with
  | .aadhaar => { c with aadhaar := c.aadhaar + n }
  | .pan => { c with pan := c.pan + n }
  | .credit_card => { c with credit_card := c.credit_card + n }
  | .email => { c with email := c.email + n }
  | .passport => { c with passport := c.passport + n }
  | .driving_license => { c with driving_license := c.driving_license + n }
  | .phone => { c with phone := c.phone + n }
  | .person => { c with person := c.person + n }
  | .voter_id => { c with voter_id := c.voter_id + n }
  | .dob => { c with dob := c.dob + n }

/-- Dispatch of `PII_HANDLERS` (lines 209-220). -/
def runHandler (k : CatKey) (text : String) (re? : Option RE) (cfg : MaskConfig)
    (ctx : Option RunCtx) : String × Nat × Option RunCtx :=
  match k with
  | .aadhaar => mask_aadhaar text re? cfg.strategy cfg.char ctx
  | .pan => anonymize_pan text re? cfg.strategy cfg.char ctx
  | .credit_card => mask_credit_cards text re? cfg.strategy cfg.char ctx
  | .email => pseudo_email text re? cfg.strategy cfg.char ctx
  | .passport => mask_passport text re? cfg.strategy cfg.char ctx
  | .driving_license => mask_driving_license text re? cfg.strategy cfg.char ctx
  | .phone => mask_phone text re? cfg.strategy cfg.char ctx
  | .person => mask_person text re? cfg.strategy cfg.char ctx
  | .voter_id => mask_voter_id text re? cfg.strategy cfg.char ctx
  | .dob => mask_dob text re? cfg.strategy cfg.char ctx

/-- One step of the `process_text` loop: look up the category's mask config
(`(mask_configs or {}).get(key, {"enabled": False})`); a missing or disabled
config skips the handler entirely; otherwise the handler runs on the current
text with the category's pattern override, its count is added, and the shared
context is threaded on. -/
def procStep (patterns : CatKey → Option RE) (mask_configs : CatKey → Option MaskConfig)
    (st : String × DetectionCounts × Option RunCtx) (k : CatKey) :
    String × DetectionCounts × Option RunCtx :=
  match mask_configs k with
  | none => st
  | some cfg =>
      if cfg.enabled then
        let out := runHandler k st.1 (patterns k) cfg st.2.2
        (out.1, addCount st.2.1 k out.2.1, out.2.2)
      else st

/-- Embeds `process_text` (lines 225-233). -/
def process_text (text : String) (patterns : CatKey → Option RE)
    (mask_configs : CatKey → Option MaskConfig) (context : Option RunCtx) :
    String × DetectionCounts × Option RunCtx :=
  catOrder.foldl (procStep patterns mask_configs) (text, countsZero, context)

/-! ## Derived notions used by the claim statements -/

/-- A match the aadhaar handler accepts: exactly 12 digits after stripping and
Verhoeff passes (the negation of the pass-through condition of
`aadhaarRepl`). -/
def aadhaarAccept (m : List Char) : Bool :=
  (m.filter Char.isDigit).length == 12 && aadhaar_verhoeff (String.mk (m.filter Char.isDigit))

/-- A match the card handler accepts: Luhn passes on the stripped digits. -/
def cardAccept (m : List Char) : Bool :=
  luhn_checksum_ok (String.mk (m.filter Char.isDigit))

/-- Truthiness of the optional context as the handlers test it
(`if context and isinstance(context, dict)`). -/
def truthyOpt : Option RunCtx → Bool
  | some c => c.truthy
  | none => false

/-- Whether a category's configuration enables its handler
(`config.get("enabled")` after `(mask_configs or {}).get(key, {"enabled": False})`). -/
def enabledB : Option MaskConfig → Bool
  | some cfg => cfg.enabled
  | none => false

/-- One email-category pseudonymization against a (truthy) context: the
composite `context.setdefault('email_anonymizer', EmailPseudonymizer())`
followed by `anonymizer.pseudonymize(local)` of pii_utils.py lines 141-142,
with the mutation made explicit. -/
def ctxEmailPseudo (c : RunCtx) (key : String) : String × RunCtx :=
  let anonymizer := c.email_anonymizer.getD EmailPseudonymizer.init
  let ap := anonymizer.pseudonymize key
  (ap.1, { c with email_anonymizer := some ap.2 })

/-- One person-category pseudonymization against a (truthy) context: the
composite of pii_utils.py lines 181-182 for a single name token. -/
def ctxPersonPseudo (c : RunCtx) (key : String) : String × RunCtx :=
  let anonymizer := c.person_anonymizer.getD EmailPseudonymizer.init
  let ap := anonymizer.pseudonymize key
  (ap.1, { c with person_anonymizer := some ap.2 })

/-- An interleaved pseudonymization call against one shared context. -/
inductive PseudoOp where
  | email (key : String)
  | person (key : String)
deriving DecidableEq, Repr

def applyOp (c : RunCtx) : PseudoOp → String × RunCtx
  | .email k => ctxEmailPseudo c k
  | .person k => ctxPersonPseudo c k

/-- Aliases produced by an interleaved call sequence, in order. -/
def runCtxOutputs (c : RunCtx) : List PseudoOp → List String
  | [] => []
  | op :: ops => (applyOp c op).1 :: runCtxOutputs (applyOp c op).2 ops

/-- Context state after an interleaved call sequence. -/
def runCtxState (c : RunCtx) : List PseudoOp → RunCtx
  | [] => c
  | op :: ops => runCtxState (applyOp c op).2 ops

def emailKeys : List PseudoOp → List String
  | [] => []
  | .email k :: ops => k :: emailKeys ops
  | .person _ :: ops => emailKeys ops

def personKeys : List PseudoOp → List String
  | [] => []
  | .email _ :: ops => personKeys ops
  | .person k :: ops => k :: personKeys ops

/-- The outputs of an interleaved run restricted to the email calls. -/
def emailOutputs (c : RunCtx) : List PseudoOp → List String
  | [] => []
  | .email k :: ops => (applyOp c (.email k)).1 :: emailOutputs (applyOp c (.email k)).2 ops
  | .person k :: ops => emailOutputs (applyOp c (.person k)).2 ops

/-- The outputs of an interleaved run restricted to the person calls. -/
def personOutputs (c : RunCtx) : List PseudoOp → List String
  | [] => []
  | .email k :: ops => personOutputs (applyOp c (.email k)).2 ops
  | .person k :: ops => (applyOp c (.person k)).1 :: personOutputs (applyOp c (.person k)).2 ops

/-! ## End-to-end scenario (spec section 8) -/

/-- The spec's end-to-end scenario cell. -/
def scenarioCell : String :=
  "Contact John Smith at john.smith@example.com, phone +91-9876543210"

/-- All ten categories enabled with the Partial strategy and default mask
character. -/
def allPartialConfigs : CatKey → Option MaskConfig := fun _ => some { enabled := true }

/-- No pattern overrides (use the default patterns). -/
def noOverrides : CatKey → Option RE := fun _ => none

/-- A context seeded so that the dict-truthiness guard passes (one key
present, as after any successful `setdefault`). -/
def seededCtx : RunCtx := { email_anonymizer := some EmailPseudonymizer.init }

/-! # Theorems -/

/-! ## Engine lemmas -/

/-- Soundness of the matcher: when a match succeeds, the continuation was
invoked on a decomposition of the suffix — the consumed part prepended
reversed to `pre`, the remainder passed on. -/
theorem mrun_some {α : Type} : ∀ (fuel : Nat) (re : RE) (pre suf : List Char) (caps : Caps)
    (k : List Char → List Char → Caps → Option α) (r : α),
    mrun fuel re pre suf caps k = some r →
    ∃ d suf1 caps1, suf = d ++ suf1 ∧ k (d.reverse ++ pre) suf1 caps1 = some r := by
  intro fuel
  induction fuel with
  | zero =>
      intro re pre suf caps k r h
      simp [mrun] at h
  | succ fuel ih =>
      intro re pre suf caps k r h
      cases re with
      | eps =>
          exact ⟨[], suf, caps, by simp, by simpa [mrun] using h⟩
      | cls f =>
          cases suf with
          | nil => simp [mrun] at h
          | cons c rest =>
              simp only [mrun] at h
              by_cases hc : f c
              · rw [if_pos hc] at h
                exact ⟨[c], rest, caps, rfl, by simpa using h⟩
              · rw [if_neg hc] at h
                exact absurd h (by simp)
      | seq a b =>
          simp only [mrun] at h
          obtain ⟨d1, s1, c1, hs1, hk1⟩ := ih a pre suf caps _ r h
          obtain ⟨d2, s2, c2, hs2, hk2⟩ := ih b _ s1 c1 k r hk1
          refine ⟨d1 ++ d2, s2, c2, by simp [hs1, hs2], ?_⟩
          simpa [List.reverse_append, List.append_assoc] using hk2
      | alt a b =>
          simp only [mrun] at h
          cases hm : mrun fuel a pre suf caps k with
          | some r0 =>
              rw [hm] at h
              have hr : r0 = r := by simpa using h
              exact hr ▸ ih a pre suf caps k r0 hm
          | none =>
              rw [hm] at h
              exact ih b pre suf caps k r h
      | star a =>
          simp only [mrun] at h
          cases hm : mrun fuel a pre suf caps
              (fun pre1 suf1 caps1 =>
                if suf1.length < suf.length then mrun fuel (.star a) pre1 suf1 caps1 k
                else none) with
          | some r0 =>
              rw [hm] at h
              have hr : r0 = r := by simpa using h
              obtain ⟨d1, s1, c1, hs1, hk1⟩ := ih a pre suf caps _ r0 hm
              by_cases hlt : s1.length < suf.length
              · rw [if_pos hlt] at hk1
                obtain ⟨d2, s2, c2, hs2, hk2⟩ := ih (.star a) _ s1 c1 k r0 hk1
                refine ⟨d1 ++ d2, s2, c2, by simp [hs1, hs2], ?_⟩
                rw [← hr]
                simpa [List.reverse_append, List.append_assoc] using hk2
              · rw [if_neg hlt] at hk1
                exact absurd hk1 (by simp)
          | none =>
              rw [hm] at h
              exact ⟨[], suf, caps, by simp, by simpa using h⟩
      | group n a =>
          simp only [mrun] at h
          obtain ⟨d1, s1, c1, hs1, hk1⟩ := ih a pre suf caps _ r h
          exact ⟨d1, s1, _, hs1, hk1⟩
      | wordB =>
          simp only [mrun] at h
          by_cases hb : headIsWord pre ≠ headIsWord suf
          · rw [if_pos hb] at h
            exact ⟨[], suf, caps, by simp, by simpa using h⟩
          · rw [if_neg hb] at h
            exact absurd h (by simp)

/-- An anchored match decomposes the suffix: consumed characters followed by
the rest. -/
theorem tryMatchAt_append {fuel : Nat} {re : RE} {pre suf consumed rest : List Char}
    {caps : Caps} (h : tryMatchAt fuel re pre suf = some (consumed, rest, caps)) :
    consumed ++ rest = suf := by
  obtain ⟨d, s1, c1, hs, hk⟩ := mrun_some fuel re pre suf [] _ _ h
  simp only [Option.some.injEq, Prod.mk.injEq] at hk
  obtain ⟨h1, h2, h3⟩ := hk
  have hlen : (d.reverse ++ pre).length - pre.length = d.reverse.length := by
    simp [List.length_append]
  have htake : (d.reverse ++ pre).take ((d.reverse ++ pre).length - pre.length) = d.reverse := by
    rw [hlen]
    exact List.take_left d.reverse pre
  rw [htake] at h1
  simp only [List.reverse_reverse] at h1
  rw [← h1, ← h2]
  exact hs.symm

/-- Counting: when a replacement callback's count depends only on the matched
characters, the scan's total count is the sum of that function over the
matches visited. -/
theorem subScan_count {σ : Type} (f : List Char → Nat) :
    ∀ (fuel : Nat) (re : RE) (repl : List Char → Caps → σ → List Char × Nat × σ)
      (pre suf : List Char) (st : σ),
    (∀ m caps s, (repl m caps s).2.1 = f m) →
    (subScan fuel re repl pre suf st).2.1 =
      ((scanAll fuel re pre suf).map (fun mc => f mc.1)).sum := by
  intro fuel
  induction fuel with
  | zero =>
      intro re repl pre suf st hf
      simp [subScan, scanAll]
  | succ fuel ih =>
      intro re repl pre suf st hf
      simp only [subScan, scanAll]
      cases htm : tryMatchAt (matcherFuel suf) re pre suf with
      | none =>
          simp only [htm]
          cases suf with
          | nil => simp
          | cons c cs => simpa using ih re repl (c :: pre) cs st hf
      | some t =>
          obtain ⟨consumed, rest, caps⟩ := t
          simp only [htm]
          cases consumed with
          | nil =>
              cases suf with
              | nil => simp [hf]
              | cons c cs =>
                  simp [hf, ih re repl (c :: pre) cs _ hf]
          | cons c0 cr =>
              simp [hf, ih re repl (cr.reverse ++ c0 :: pre) rest _ hf]

/-- Pass-through: when the callback maps every visited match to itself with
count 0 and an unchanged state, the scan returns the text, count 0 and the
initial state. -/
theorem subScan_passthrough {σ : Type} :
    ∀ (fuel : Nat) (re : RE) (repl : List Char → Caps → σ → List Char × Nat × σ)
      (pre suf : List Char) (st : σ),
    (∀ mc ∈ scanAll fuel re pre suf, ∀ s, repl mc.1 mc.2 s = (mc.1, 0, s)) →
    subScan fuel re repl pre suf st = (suf, 0, st) := by
  intro fuel
  induction fuel with
  | zero =>
      intro re repl pre suf st _
      simp [subScan]
  | succ fuel ih =>
      intro re repl pre suf st hrepl
      simp only [subScan]
      cases htm : tryMatchAt (matcherFuel suf) re pre suf with
      | none =>
          simp only [htm]
          cases suf with
          | nil => simp
          | cons c cs =>
              have htail : ∀ mc ∈ scanAll fuel re (c :: pre) cs, ∀ s,
                  repl mc.1 mc.2 s = (mc.1, 0, s) := by
                intro mc hmc s
                refine hrepl mc ?_ s
                simp [scanAll, htm, hmc]
              simp [ih re repl (c :: pre) cs st htail]
      | some t =>
          obtain ⟨consumed, rest, caps⟩ := t
          have hsplit := tryMatchAt_append htm
          simp only [htm]
          cases consumed with
          | nil =>
              have hhead : repl [] caps st = ([], 0, st) := by
                cases suf with
                | nil => exact hrepl ([], caps) (by simp [scanAll, htm]) st
                | cons c cs => exact hrepl ([], caps) (by simp [scanAll, htm]) st
              cases suf with
              | nil => simp [hhead]
              | cons c cs =>
                  have htail : ∀ mc ∈ scanAll fuel re (c :: pre) cs, ∀ s,
                      repl mc.1 mc.2 s = (mc.1, 0, s) := by
                    intro mc hmc s
                    refine hrepl mc ?_ s
                    simp [scanAll, htm, hmc]
                  simp [hhead, ih re repl (c :: pre) cs st htail]
          | cons c0 cr =>
              have hhead : repl (c0 :: cr) caps st = (c0 :: cr, 0, st) :=
                hrepl (c0 :: cr, caps) (by simp [scanAll, htm]) st
              have htail : ∀ mc ∈ scanAll fuel re (cr.reverse ++ c0 :: pre) rest, ∀ s,
                  repl mc.1 mc.2 s = (mc.1, 0, s) := by
                intro mc hmc s
                refine hrepl mc ?_ s
                simp only [scanAll, htm]
                exact List.mem_cons_of_mem _ (by simpa using hmc)
              simp [hhead, ih re repl (cr.reverse ++ c0 :: pre) rest st htail, hsplit]

/-- State: when the callback never changes the threaded state, the scan
returns the initial state. -/
theorem subScan_state {σ : Type} :
    ∀ (fuel : Nat) (re : RE) (repl : List Char → Caps → σ → List Char × Nat × σ)
      (pre suf : List Char) (st : σ),
    (∀ m caps s, (repl m caps s).2.2 = s) →
    (subScan fuel re repl pre suf st).2.2 = st := by
  intro fuel
  induction fuel with
  | zero =>
      intro re repl pre suf st _
      simp [subScan]
  | succ fuel ih =>
      intro re repl pre suf st hst
      simp only [subScan]
      cases htm : tryMatchAt (matcherFuel suf) re pre suf with
      | none =>
          simp only [htm]
          cases suf with
          | nil => simp
          | cons c cs => simpa using ih re repl (c :: pre) cs st hst
      | some t =>
          obtain ⟨consumed, rest, caps⟩ := t
          simp only [htm]
          cases consumed with
          | nil =>
              cases suf with
              | nil => simp [hst]
              | cons c cs => simp [hst, ih re repl (c :: pre) cs _ hst]
          | cons c0 cr =>
              simp [hst, ih re repl (cr.reverse ++ c0 :: pre) rest _ hst]

/-- Fixed-state variant: when the callback leaves one particular state
unchanged, a scan started in that state ends in it. -/
theorem subScan_state_fixed {σ : Type} :
    ∀ (fuel : Nat) (re : RE) (repl : List Char → Caps → σ → List Char × Nat × σ)
      (pre suf : List Char) (st : σ),
    (∀ m caps, (repl m caps st).2.2 = st) →
    (subScan fuel re repl pre suf st).2.2 = st := by
  intro fuel
  induction fuel with
  | zero =>
      intro re repl pre suf st _
      simp [subScan]
  | succ fuel ih =>
      intro re repl pre suf st hst
      simp only [subScan]
      cases htm : tryMatchAt (matcherFuel suf) re pre suf with
      | none =>
          simp only [htm]
          cases suf with
          | nil => simp
          | cons c cs => simpa using ih re repl (c :: pre) cs st hst
      | some t =>
          obtain ⟨consumed, rest, caps⟩ := t
          simp only [htm]
          cases consumed with
          | nil =>
              cases suf with
              | nil => simp [hst]
              | cons c cs => simp [hst, ih re repl (c :: pre) cs _ hst]
          | cons c0 cr =>
              simp [hst, ih re repl (cr.reverse ++ c0 :: pre) rest _ hst]

/-! ## Supporting lemmas for the validators -/

/-- Digit characters have digit value below 10. -/
theorem charToDigit_lt_ten (c : Char) (h : c.isDigit = true) : charToDigit c < 10 := by
  simp only [Char.isDigit, Bool.and_eq_true, decide_eq_true_eq] at h
  obtain ⟨h1, h2⟩ := h
  have h2' : c.toNat ≤ 57 := by exact_mod_cast h2
  simp only [charToDigit]
  omega

/-- Every entry of `digitsOf` is a digit value. -/
theorem digitsOf_lt_ten (s : String) : ∀ d ∈ digitsOf s, d < 10 := by
  intro d hd
  simp only [digitsOf, List.mem_map, List.mem_filter] at hd
  obtain ⟨c, ⟨_, hc⟩, rfl⟩ := hd
  exact charToDigit_lt_ten c hc

/-- The Verhoeff permutation table is total on row indices below 8 and digit
values below 10, with entries below 10. -/
theorem p_table_total : ∀ i < 8, ∀ d < 10,
    (tableGet p_table i d).isSome = true ∧ (tableGet p_table i d).getD 0 < 10 := by decide

/-- The Verhoeff multiplication table is total on indices below 10, with
entries below 10. -/
theorem d_table_total : ∀ c < 10, ∀ d < 10,
    (tableGet d_table c d).isSome = true ∧ (tableGet d_table c d).getD 0 < 10 := by decide

/-- The Verhoeff table walk never hits the failure branch on digit values:
the `except (ValueError, IndexError)` fallback of the source is dead code. -/
theorem verhoeffWalk_total : ∀ (ds : List Nat), (∀ d ∈ ds, d < 10) →
    ∀ c, c < 10 → ∀ i, (verhoeffWalk c i ds).isSome = true := by
  intro ds
  induction ds with
  | nil =>
      intro _ c _ i
      simp [verhoeffWalk]
  | cons d ds ih =>
      intro hds c hc i
      have hd : d < 10 := hds d (by simp)
      have hp := p_table_total (i % 8) (Nat.mod_lt i (by norm_num)) d hd
      obtain ⟨pd, hpd⟩ := Option.isSome_iff_exists.mp hp.1
      have hpd10 : pd < 10 := by
        have := hp.2
        rw [hpd] at this
        simpa using this
      have hdt := d_table_total c hc pd hpd10
      obtain ⟨c', hc'⟩ := Option.isSome_iff_exists.mp hdt.1
      have hc'10 : c' < 10 := by
        have := hdt.2
        rw [hc'] at this
        simpa using this
      simp only [verhoeffWalk, hpd, hc']
      exact ih (fun x hx => hds x (by simp [hx])) c' hc'10 (i + 1)

/-! ## Claim C1 -/

/-- C1 counterexample: the claim says the Verhoeff validator returns false
unless the digit-stripped input has exactly 12 digits, and in particular that
empty input yields false; but `aadhaar_verhoeff ""` walks zero digits, leaves
the check value at its initial 0 and returns true. -/
theorem claim_C1_counterexample :
    (digitsOf "").length ≠ 12 ∧ aadhaar_verhoeff "" = true := by decide

/-- C1 (amended): `aadhaar_verhoeff` itself imposes no length requirement —
it returns true exactly when the Verhoeff walk over the digit-stripped input
ends at check value 0, and in particular returns true on empty input; no
exception can propagate (the table walk never fails on digit values, so the
`except` branch is dead).  The 12-digit fail-closed gate lives one level up:
`mask_aadhaar`'s callback passes any match whose digit-stripped content is not
exactly 12 digits through unchanged and uncounted. -/
theorem claim_C1_amended :
    aadhaar_verhoeff "" = true
  ∧ (∀ number : String, (verhoeffWalk 0 0 (digitsOf number).reverse).isSome = true)
  ∧ (∀ (strategy : String) (mask_char : Char) (m : List Char) (caps : Caps)
      (ctx : Option RunCtx), (m.filter Char.isDigit).length ≠ 12 →
      aadhaarRepl strategy mask_char m caps ctx = (m, 0, ctx)) := by
  refine ⟨by decide, ?_, ?_⟩
  · intro number
    refine verhoeffWalk_total _ ?_ 0 (by norm_num) 0
    intro d hd
    exact digitsOf_lt_ten number d (by simpa using hd)
  · intro strategy mask_char m caps ctx h
    simp only [aadhaarRepl]
    rw [if_pos (Or.inl h)]

/-- Witness for C1 (amended): a three-character candidate is passed through
unchanged by the aadhaar callback. -/
theorem claim_C1_amended_witness :
    ("123".data.filter Char.isDigit).length ≠ 12 ∧
    aadhaarRepl "partial" '*' "123".data [] none = ("123".data, 0, none) :=
  ⟨by decide, claim_C1_amended.2.2 "partial" '*' "123".data [] none (by decide)⟩

/-! ## Claim C2 -/

/-- First-match evaluation of the ordered risk-rule list agrees with the
nested `if`/`elif` cascade of the source. -/
theorem riskFirstMatch_eq (tp fp : Nat) (prec : ℚ) :
    riskFirstMatch tp fp prec =
      (if tp = 0 ∧ 0 < fp then "Critical"
       else if 0 < tp ∧ fp = 0 then "Low"
       else if (4 : ℚ) / 5 ≤ prec then "Medium"
       else if (1 : ℚ) / 2 ≤ prec then "High"
       else "Critical") := by
  simp only [riskFirstMatch, riskRules, List.find?]
  by_cases h1 : tp = 0 ∧ 0 < fp
  · simp [h1.1, h1.2, h1]
  · have hb1 : (tp == 0 && decide (0 < fp)) = false := by
      by_cases htp : tp = 0 <;> by_cases hfp : 0 < fp <;> simp_all
    by_cases h2 : 0 < tp ∧ fp = 0
    · simp [hb1, h1, h2, h2.1, h2.2]
    · have hb2 : (decide (0 < tp) && fp == 0) = false := by
        by_cases htp : 0 < tp <;> by_cases hfp : fp = 0 <;> simp_all
      by_cases h3 : (4 : ℚ) / 5 ≤ prec
      · simp [hb1, hb2, h1, h2, h3]
      · by_cases h4 : (1 : ℚ) / 2 ≤ prec
        · have h4' : (2⁻¹ : ℚ) ≤ prec := by rwa [← one_div]
          simp [hb1, hb2, h1, h2, h3, h4, h4']
        · have h4' : ¬(2⁻¹ : ℚ) ≤ prec := by rwa [← one_div]
          simp [hb1, hb2, h1, h2, h3, h4, h4']

/-- C2: for every found count and optional expected count, the metric entry
satisfies tp = min(found, expected), fp = max(0, found - expected),
fn = max(0, expected - found) when expected is set (tp = found, fp = fn = 0
otherwise); precision, recall and f1 follow the guarded division formulas with
0 for a zero denominator; the risk level equals the first matching rule of the
ordered five-rule list when expected is set and is `N/A` otherwise; and the
two concrete instances of the claim hold (found 10, expected 10 is tp 10,
fp 0, precision 1, risk Low; found 10, expected 0 is tp 0, fp 10, risk
Critical). -/
theorem claim_C2 (found : Nat) (expected : Option Nat) :
    ((calculate_metrics found expected).tp =
        match expected with | some e => min found e | none => found)
  ∧ (((calculate_metrics found expected).fp : ℤ) =
        match expected with | some e => max 0 ((found : ℤ) - (e : ℤ)) | none => 0)
  ∧ (((calculate_metrics found expected).falseNeg : ℤ) =
        match expected with | some e => max 0 ((e : ℤ) - (found : ℤ)) | none => 0)
  ∧ ((calculate_metrics found expected).precision =
        if (calculate_metrics found expected).tp + (calculate_metrics found expected).fp > 0
        then ((calculate_metrics found expected).tp : ℚ) /
          (((calculate_metrics found expected).tp : ℚ) + ((calculate_metrics found expected).fp : ℚ))
        else 0)
  ∧ ((calculate_metrics found expected).recallQ =
        if (calculate_metrics found expected).tp + (calculate_metrics found expected).falseNeg > 0
        then ((calculate_metrics found expected).tp : ℚ) /
          (((calculate_metrics found expected).tp : ℚ) +
            ((calculate_metrics found expected).falseNeg : ℚ))
        else 0)
  ∧ ((calculate_metrics found expected).f1 =
        if (calculate_metrics found expected).precision + (calculate_metrics found expected).recallQ > 0
        then 2 * ((calculate_metrics found expected).precision *
            (calculate_metrics found expected).recallQ) /
          ((calculate_metrics found expected).precision + (calculate_metrics found expected).recallQ)
        else 0)
  ∧ ((calculate_metrics found expected).risk =
        match expected with
        | none => "N/A"
        | some _ => riskFirstMatch (calculate_metrics found expected).tp
            (calculate_metrics found expected).fp (calculate_metrics found expected).precision)
  ∧ (calculate_metrics 10 (some 10)).tp = 10 ∧ (calculate_metrics 10 (some 10)).fp = 0
  ∧ (calculate_metrics 10 (some 10)).precision = 1
  ∧ (calculate_metrics 10 (some 10)).risk = "Low"
  ∧ (calculate_metrics 10 (some 0)).tp = 0 ∧ (calculate_metrics 10 (some 0)).fp = 10
  ∧ (calculate_metrics 10 (some 0)).risk = "Critical" := by
  refine ⟨?_, ?_, ?_, ?_, ?_, ?_, ?_, by decide, by decide, by norm_num [calculate_metrics],
    by norm_num [calculate_metrics], by decide, by decide, by norm_num [calculate_metrics]⟩
  · cases expected <;> simp [calculate_metrics]
  · cases expected with
    | none => simp [calculate_metrics]
    | some e =>
        simp only [calculate_metrics]
        omega
  · cases expected with
    | none => simp [calculate_metrics]
    | some e =>
        simp only [calculate_metrics]
        omega
  · cases expected <;> simp [calculate_metrics]
  · cases expected <;> simp [calculate_metrics]
  · cases expected <;> simp [calculate_metrics]
  · cases expected with
    | none => simp [calculate_metrics]
    | some e =>
        rw [riskFirstMatch_eq]
        simp only [calculate_metrics]

/-! ## Claim C9 -/

/-- A disabled or missing configuration makes the loop step a no-op. -/
theorem procStep_disabled (patterns : CatKey → Option RE)
    (mask_configs : CatKey → Option MaskConfig) (st : String × DetectionCounts × Option RunCtx)
    (k : CatKey) (h : enabledB (mask_configs k) = false) :
    procStep patterns mask_configs st k = st := by
  simp only [procStep]
  cases hm : mask_configs k with
  | none => rfl
  | some cfg =>
      have : cfg.enabled = false := by simpa [enabledB, hm] using h
      simp [this]

/-- Folding the loop over a category list visits only the enabled
categories. -/
theorem foldl_procStep_filter (patterns : CatKey → Option RE)
    (mask_configs : CatKey → Option MaskConfig) :
    ∀ (l : List CatKey) (st : String × DetectionCounts × Option RunCtx),
    l.foldl (procStep patterns mask_configs) st =
      (l.filter (fun k => enabledB (mask_configs k))).foldl
        (procStep patterns mask_configs) st := by
  intro l
  induction l with
  | nil => intro st; rfl
  | cons k rest ih =>
      intro st
      by_cases hk : enabledB (mask_configs k) = true
      · simp only [List.foldl_cons, List.filter_cons, hk, if_pos]
        exact ih _
      · have hk' : enabledB (mask_configs k) = false := by simpa using hk
        simp only [List.foldl_cons, List.filter_cons, hk']
        rw [procStep_disabled patterns mask_configs st k hk']
        simpa using ih st

/-- `addCount` at one key leaves the other counters unchanged. -/
theorem getCount_addCount_ne (c : DetectionCounts) (k' k : CatKey) (n : Nat)
    (h : k' ≠ k) : getCount (addCount c k' n) k = getCount c k := by
  cases k' <;> cases k <;> simp_all [getCount, addCount]

/-- A disabled category's counter is never incremented by the loop. -/
theorem foldl_procStep_count_disabled (patterns : CatKey → Option RE)
    (mask_configs : CatKey → Option MaskConfig) (k : CatKey)
    (hk : enabledB (mask_configs k) = false) :
    ∀ (l : List CatKey) (st : String × DetectionCounts × Option RunCtx),
    getCount (l.foldl (procStep patterns mask_configs) st).2.1 k = getCount st.2.1 k := by
  intro l
  induction l with
  | nil => intro st; rfl
  | cons k' rest ih =>
      intro st
      rw [List.foldl_cons, ih]
      by_cases hkk : k' = k
      · subst hkk
        rw [procStep_disabled patterns mask_configs st k' hk]
      · simp only [procStep]
        cases mask_configs k' with
        | none => rfl
        | some cfg =>
            by_cases he : cfg.enabled <;> simp [he, getCount_addCount_ne _ _ _ _ hkk]

/-- C9: a category whose mask config is missing or disabled contributes count
0 and its handler is never invoked — the whole loop equals the loop over the
enabled categories only; in particular, with every category disabled,
`process_text` returns the text unchanged, all-zero counts and the untouched
context. -/
theorem claim_C9 (text : String) (patterns : CatKey → Option RE)
    (mask_configs : CatKey → Option MaskConfig) (context : Option RunCtx) :
    (process_text text patterns mask_configs context =
      (catOrder.filter (fun k => enabledB (mask_configs k))).foldl
        (procStep patterns mask_configs) (text, countsZero, context))
  ∧ (∀ k, enabledB (mask_configs k) = false →
      getCount (process_text text patterns mask_configs context).2.1 k = 0)
  ∧ ((∀ k, enabledB (mask_configs k) = false) →
      process_text text patterns mask_configs context = (text, countsZero, context)) := by
  refine ⟨foldl_procStep_filter patterns mask_configs catOrder _, ?_, ?_⟩
  · intro k hk
    rw [process_text, foldl_procStep_count_disabled patterns mask_configs k hk]
    cases k <;> rfl
  · intro hall
    rw [process_text, foldl_procStep_filter patterns mask_configs catOrder]
    have : catOrder.filter (fun k => enabledB (mask_configs k)) = [] := by
      rw [List.filter_eq_nil_iff]
      intro k _
      simp [hall k]
    rw [this]
    rfl

/-- Witness for C9: with every category disabled, a sample text is returned
unchanged with all-zero counts. -/
theorem claim_C9_witness :
    process_text "Contact John Smith at a@x.com" noOverrides (fun _ => none) none =
      ("Contact John Smith at a@x.com", countsZero, none) :=
  (claim_C9 "Contact John Smith at a@x.com" noOverrides (fun _ => none) none).2.2
    (fun k => by cases k <;> rfl)

/-! ## Claim C10 -/

/-- C10: with the partial strategy and a context that is `None` or a falsy
(empty) dict, the email callback rewrites every matched address whose group 1
contains `@` to the fixed local part `user` with the original domain
preserved; no alias counter is allocated or consulted (the context passes
through the whole handler unchanged), and any two matches with the same
domain collapse to the identical replacement. -/
theorem claim_C10 (mask_char : Char) (ctx : Option RunCtx)
    (hctx : truthyOpt ctx = false) :
    (∀ (m full_email : List Char) (caps : Caps), caps.lookup 1 = some full_email →
        full_email.contains '@' = true →
        emailRepl "partial" mask_char m caps ctx =
          ("user@".data ++ (rsplitLast '@' full_email).2, 1, ctx))
  ∧ (∀ text re?, (pseudo_email text re? "partial" mask_char ctx).2.2 = ctx)
  ∧ (∀ (m1 m2 e1 e2 : List Char) (caps1 caps2 : Caps),
        caps1.lookup 1 = some e1 → caps2.lookup 1 = some e2 →
        e1.contains '@' = true → e2.contains '@' = true →
        (rsplitLast '@' e1).2 = (rsplitLast '@' e2).2 →
        (emailRepl "partial" mask_char m1 caps1 ctx).1 =
          (emailRepl "partial" mask_char m2 caps2 ctx).1) := by
  have hrepl : ∀ (m full_email : List Char) (caps : Caps), caps.lookup 1 = some full_email →
      full_email.contains '@' = true →
      emailRepl "partial" mask_char m caps ctx =
        ("user@".data ++ (rsplitLast '@' full_email).2, 1, ctx) := by
    intro m full_email caps hcaps hat
    have hat' : '@' ∈ full_email := by simpa using hat
    cases ctx with
    | none => simp [emailRepl, _apply_mask, hcaps, hat, hat']
    | some c =>
        have hc : c.truthy = false := by simpa [truthyOpt] using hctx
        simp [emailRepl, _apply_mask, hcaps, hat, hat', hc]
  have hstate : ∀ (m : List Char) (caps : Caps),
      (emailRepl "partial" mask_char m caps ctx).2.2 = ctx := by
    intro m caps
    cases ctx with
    | none =>
        simp only [emailRepl, _apply_mask, if_pos rfl]
        by_cases hm : '@' ∈ (List.lookup 1 caps).getD ([] : List Char) <;> simp [hm]
    | some c =>
        have hc : c.truthy = false := by simpa [truthyOpt] using hctx
        simp only [emailRepl, _apply_mask, if_pos rfl]
        by_cases hm : '@' ∈ (List.lookup 1 caps).getD ([] : List Char) <;> simp [hm, hc]
  refine ⟨hrepl, ?_, ?_⟩
  · intro text re?
    simp only [pseudo_email, pySub]
    exact subScan_state_fixed _ _ _ _ _ _ hstate
  · intro m1 m2 e1 e2 caps1 caps2 h1 h2 hat1 hat2 hdom
    rw [hrepl m1 e1 caps1 h1 hat1, hrepl m2 e2 caps2 h2 hat2, hdom]

/-- Witness for C10: with no context, a concrete matched address is rewritten
to `user@` plus its domain, and the handler leaves the absent context
untouched on a concrete text. -/
theorem claim_C10_witness :
    truthyOpt none = false ∧
    emailRepl "partial" '*' "a.b@x.com".data [(1, "a.b@x.com".data)] none =
      ("user@x.com".data, 1, none) ∧
    (pseudo_email "write to a.b@x.com now" none "partial" '*' none).2.2 = none := by
  refine ⟨by decide, ?_, ?_⟩
  · have h := (claim_C10 '*' none (by decide)).1 "a.b@x.com".data "a.b@x.com".data
      [(1, "a.b@x.com".data)] (by decide) (by decide)
    rw [h]
    decide
  · exact (claim_C10 '*' none (by decide)).2.1 "write to a.b@x.com now" none

/-! ## Claim C3 -/

/-- Summing an indicator over a list counts the filtered elements. -/
theorem sum_if_indicator {α : Type} (p : α → Bool) (l : List α) :
    (l.map (fun x => if p x then 1 else 0)).sum = (l.filter p).length := by
  induction l with
  | nil => simp
  | cons a l ih =>
      by_cases h : p a
      · simp [h, ih]
        omega
      · simp [h, ih]

/-- The aadhaar callback's count contribution is 1 exactly on accepted
matches. -/
theorem aadhaarRepl_delta (strategy : String) (mask_char : Char) (m : List Char)
    (caps : Caps) (ctx : Option RunCtx) :
    (aadhaarRepl strategy mask_char m caps ctx).2.1 =
      if aadhaarAccept m then 1 else 0 := by
  simp only [aadhaarRepl, aadhaarAccept]
  by_cases h1 : (m.filter Char.isDigit).length = 12 <;>
    by_cases h2 : aadhaar_verhoeff (String.mk (m.filter Char.isDigit)) = true <;>
    simp [h1, h2]

/-- A checksum-failing aadhaar candidate passes through: replaced by itself,
count 0, context untouched. -/
theorem aadhaarRepl_pass (strategy : String) (mask_char : Char) (m : List Char)
    (caps : Caps) (ctx : Option RunCtx) (h : aadhaarAccept m = false) :
    aadhaarRepl strategy mask_char m caps ctx = (m, 0, ctx) := by
  simp only [aadhaarRepl]
  by_cases h1 : (m.filter Char.isDigit).length = 12
  · have h2 : aadhaar_verhoeff (String.mk (m.filter Char.isDigit)) = false := by
      simpa [aadhaarAccept, h1] using h
    rw [if_pos (Or.inr h2)]
  · rw [if_pos (Or.inl h1)]

/-- The card callback's count contribution is 1 exactly on Luhn-accepted
matches. -/
theorem cardRepl_delta (strategy : String) (mask_char : Char) (m : List Char)
    (caps : Caps) (ctx : Option RunCtx) :
    (cardRepl strategy mask_char m caps ctx).2.1 =
      if cardAccept m then 1 else 0 := by
  simp only [cardRepl, cardAccept]
  by_cases h : luhn_checksum_ok (String.mk (m.filter Char.isDigit)) = true <;> simp [h]

/-- A Luhn-failing card candidate passes through: replaced by itself, count 0,
context untouched. -/
theorem cardRepl_pass (strategy : String) (mask_char : Char) (m : List Char)
    (caps : Caps) (ctx : Option RunCtx) (h : cardAccept m = false) :
    cardRepl strategy mask_char m caps ctx = (m, 0, ctx) := by
  simp only [cardRepl]
  rw [if_pos (by simpa [cardAccept] using h)]

theorem mk_data_eq (s : String) : String.mk s.data = s := rfl

/-- C3: for every text, pattern, strategy and mask character, in the aadhaar
and card handlers a match that fails the category's checksum (for aadhaar,
also one whose digit count is not 12) is replaced by itself with count
contribution 0, and the handler's returned count equals the number of
checksum-passing matches; a passing match contributes exactly 1; when every
match fails, the whole text (and the context) come back unchanged with
count 0. -/
theorem claim_C3 (re? : Option RE) (strategy : String) (mask_char : Char)
    (text : String) (ctx : Option RunCtx) :
    ((mask_aadhaar text re? strategy mask_char ctx).2.1 =
      ((findMatches (re?.getD AADHAAR_PATTERN) text.data).filter
        (fun mc => aadhaarAccept mc.1)).length)
  ∧ (∀ (m : List Char) (caps : Caps) (ctx' : Option RunCtx), aadhaarAccept m = false →
      aadhaarRepl strategy mask_char m caps ctx' = (m, 0, ctx'))
  ∧ (∀ (m : List Char) (caps : Caps) (ctx' : Option RunCtx), aadhaarAccept m = true →
      (aadhaarRepl strategy mask_char m caps ctx').2.1 = 1)
  ∧ ((∀ mc ∈ findMatches (re?.getD AADHAAR_PATTERN) text.data, aadhaarAccept mc.1 = false) →
      mask_aadhaar text re? strategy mask_char ctx = (text, 0, ctx))
  ∧ ((mask_credit_cards text re? strategy mask_char ctx).2.1 =
      ((findMatches (re?.getD CREDIT_CARD_PATTERN) text.data).filter
        (fun mc => cardAccept mc.1)).length)
  ∧ (∀ (m : List Char) (caps : Caps) (ctx' : Option RunCtx), cardAccept m = false →
      cardRepl strategy mask_char m caps ctx' = (m, 0, ctx'))
  ∧ (∀ (m : List Char) (caps : Caps) (ctx' : Option RunCtx), cardAccept m = true →
      (cardRepl strategy mask_char m caps ctx').2.1 = 1)
  ∧ ((∀ mc ∈ findMatches (re?.getD CREDIT_CARD_PATTERN) text.data, cardAccept mc.1 = false) →
      mask_credit_cards text re? strategy mask_char ctx = (text, 0, ctx)) := by
  refine ⟨?_, ?_, ?_, ?_, ?_, ?_, ?_, ?_⟩
  · simp only [mask_aadhaar, pySub, findMatches]
    rw [subScan_count (fun m => if aadhaarAccept m then 1 else 0) _ _ _ _ _ _
      (fun m caps s => aadhaarRepl_delta strategy mask_char m caps s)]
    exact sum_if_indicator (fun (mc : List Char × Caps) => aadhaarAccept mc.1) _
  · intro m caps ctx' h
    exact aadhaarRepl_pass strategy mask_char m caps ctx' h
  · intro m caps ctx' h
    rw [aadhaarRepl_delta, if_pos h]
  · intro hall
    have hpass : ∀ mc ∈ scanAll (text.data.length + 1) (re?.getD AADHAAR_PATTERN) [] text.data,
        ∀ s, aadhaarRepl strategy mask_char mc.1 mc.2 s = (mc.1, 0, s) :=
      fun mc hmc s => aadhaarRepl_pass strategy mask_char mc.1 mc.2 s (hall mc hmc)
    simp only [mask_aadhaar, pySub]
    rw [subScan_passthrough _ _ _ _ _ _ hpass]
  · simp only [mask_credit_cards, pySub, findMatches]
    rw [subScan_count (fun m => if cardAccept m then 1 else 0) _ _ _ _ _ _
      (fun m caps s => cardRepl_delta strategy mask_char m caps s)]
    exact sum_if_indicator (fun (mc : List Char × Caps) => cardAccept mc.1) _
  · intro m caps ctx' h
    exact cardRepl_pass strategy mask_char m caps ctx' h
  · intro m caps ctx' h
    rw [cardRepl_delta, if_pos h]
  · intro hall
    have hpass : ∀ mc ∈ scanAll (text.data.length + 1) (re?.getD CREDIT_CARD_PATTERN) [] text.data,
        ∀ s, cardRepl strategy mask_char mc.1 mc.2 s = (mc.1, 0, s) :=
      fun mc hmc s => cardRepl_pass strategy mask_char mc.1 mc.2 s (hall mc hmc)
    simp only [mask_credit_cards, pySub]
    rw [subScan_passthrough _ _ _ _ _ _ hpass]

/-- Witness for C3: a 12-digit aadhaar-shaped candidate failing Verhoeff and a
16-digit card candidate failing Luhn are passed through unchanged and
uncounted on concrete texts, while Verhoeff- and Luhn-valid candidates are
counted once. -/
theorem claim_C3_witness :
    aadhaarAccept "234567890127".data = false ∧
    mask_aadhaar "id 2345 6789 0127 x" none "partial" '*' none =
      ("id 2345 6789 0127 x", 0, none) ∧
    (aadhaarRepl "partial" '*' "234567890128".data [] none).2.1 = 1 ∧
    cardAccept "1234567890123456".data = false ∧
    mask_credit_cards "cc 1234567890123456" none "full" '#' none =
      ("cc 1234567890123456", 0, none) ∧
    (cardRepl "partial" '*' "4111111111111111".data [] none).2.1 = 1 := by
  have h := claim_C3 none "partial" '*' "id 2345 6789 0127 x" none
  have h2 := claim_C3 none "full" '#' "cc 1234567890123456" none
  refine ⟨by decide, ?_, ?_, by decide, ?_, ?_⟩
  · exact h.2.2.2.1 (by decide)
  · exact (claim_C3 none "partial" '*' "" none).2.2.1 "234567890128".data [] none (by decide)
  · exact h2.2.2.2.2.2.2.2 (by decide)
  · exact (claim_C3 none "partial" '*' "" none).2.2.2.2.2.2.1 "4111111111111111".data [] none
      (by decide)

/-! ## Claim C7 -/

/-- The Luhn sum splits over concatenation, with the index advanced. -/
theorem luhnTotal_append (ys : List Nat) : ∀ (xs : List Nat) (parity i : Nat),
    luhnTotal parity i (xs ++ ys) = luhnTotal parity i xs + luhnTotal parity (i + xs.length) ys := by
  intro xs
  induction xs with
  | nil => intro parity i; simp [luhnTotal]
  | cons d xs ih =>
      intro parity i
      have h1 : luhnTotal parity i ((d :: xs) ++ ys) =
          luhnDigit parity i d + luhnTotal parity (i + 1) (xs ++ ys) := rfl
      have h2 : luhnTotal parity i (d :: xs) =
          luhnDigit parity i d + luhnTotal parity (i + 1) xs := rfl
      rw [h1, h2, ih parity (i + 1)]
      have heq : i + 1 + xs.length = i + (d :: xs).length := by
        simp only [List.length_cons]
        omega
      rw [heq, Nat.add_assoc]

/-- Reindexing: the source's left-to-right walk with parity `len % 2` equals
the spec's right-to-left doubling (`b` records whether one extra position sits
to the right of `xs`). -/
theorem luhn_reindex : ∀ (xs : List Nat) (b : Bool),
    luhnTotal ((xs.length + (if b then 1 else 0)) % 2) 0 xs = luhnSumRight b xs.reverse := by
  intro xs
  induction xs using List.reverseRecOn with
  | nil => intro b; simp [luhnTotal, luhnSumRight]
  | append_singleton xs d ih =>
      intro b
      rw [luhnTotal_append]
      have hrev : (xs ++ [d]).reverse = d :: xs.reverse := by simp
      rw [hrev]
      simp only [luhnSumRight, luhnTotal, Nat.add_zero, Nat.zero_add]
      have hp : (((xs ++ [d]).length + (if b then 1 else 0)) % 2) =
          ((xs.length + (if !b then 1 else 0)) % 2) := by
        cases b
        · simp
        · simp
          omega
      rw [hp, ih (!b)]
      have hdig : luhnDigit ((xs.length + (if !b then 1 else 0)) % 2) xs.length d =
          (if b then (if d * 2 > 9 then d * 2 - 9 else d * 2) else (if d > 9 then d - 9 else d)) := by
        simp only [luhnDigit]
        cases b with
        | true =>
            have : xs.length % 2 = (xs.length + 0) % 2 := by omega
            simp [this]
        | false =>
            have hne : ¬(xs.length % 2 = (xs.length + 1) % 2) := by omega
            simp [hne]
      rw [hdig]
      cases b <;> simp [Nat.add_comm]

/-- Totality of the digit-character encoding below 10. -/
theorem digitChar_isDigit : ∀ d < 10, (Nat.digitChar d).isDigit = true := by decide

theorem charToDigit_digitChar : ∀ d < 10, charToDigit (Nat.digitChar d) = d := by decide

/-- Rendering a digit list as characters and reading the digits back is the
identity. -/
theorem digitsOf_map_digitChar (l : List Nat) (h : ∀ d ∈ l, d < 10) :
    digitsOf (String.mk (l.map Nat.digitChar)) = l := by
  have hdata : (String.mk (l.map Nat.digitChar)).data = l.map Nat.digitChar := rfl
  simp only [digitsOf, hdata]
  rw [List.filter_eq_self.mpr]
  · rw [List.map_map]
    have : ∀ x ∈ l, (charToDigit ∘ Nat.digitChar) x = id x := by
      intro x hx
      simpa using charToDigit_digitChar x (h x hx)
    rw [List.map_congr_left this, List.map_id]
  · intro a ha
    obtain ⟨d, hd, rfl⟩ := List.mem_map.mp ha
    exact digitChar_isDigit d (h d hd)

/-- C7: the Luhn validator fails closed outside digit lengths 13-19, and
inside that range accepts exactly when the right-to-left doubled sum is
divisible by 10; consequently every digit string produced by the standard
Luhn check-digit construction with total length 13-19 is accepted. -/
theorem claim_C7 (s : String) :
    ((digitsOf s).length < 13 ∨ 19 < (digitsOf s).length → luhn_checksum_ok s = false)
  ∧ (luhn_checksum_ok s = true ↔
      (13 ≤ (digitsOf s).length ∧ (digitsOf s).length ≤ 19 ∧
        luhnSumRight false (digitsOf s).reverse % 10 = 0))
  ∧ (∀ payload : List Nat, (∀ d ∈ payload, d < 10) →
      12 ≤ payload.length → payload.length ≤ 18 →
      luhn_checksum_ok
        (String.mk ((payload ++ [luhnCheckDigit payload]).map Nat.digitChar)) = true) := by
  have hchar : ∀ t : String, luhn_checksum_ok t = true ↔
      (13 ≤ (digitsOf t).length ∧ (digitsOf t).length ≤ 19 ∧
        luhnSumRight false (digitsOf t).reverse % 10 = 0) := by
    intro t
    have hb : (digitsOf t).length % 2 = (((digitsOf t).length + (if false then 1 else 0)) % 2) := by
      simp
    simp only [luhn_checksum_ok]
    by_cases hlen : 13 ≤ (digitsOf t).length ∧ (digitsOf t).length ≤ 19
    · rw [if_pos hlen, hb, luhn_reindex (digitsOf t) false]
      simp [hlen.1, hlen.2]
    · rw [if_neg hlen]
      exact ⟨fun hcontra => absurd hcontra (by simp),
        fun hcontra => (hlen ⟨hcontra.1, hcontra.2.1⟩).elim⟩
  refine ⟨?_, hchar s, ?_⟩
  · intro hout
    cases hluhn : luhn_checksum_ok s with
    | false => rfl
    | true =>
        obtain ⟨h1, h2, _⟩ := (hchar s).mp hluhn
        omega
  · intro payload hdig hlo hhi
    have hc : luhnCheckDigit payload < 10 := Nat.mod_lt _ (by norm_num)
    have hall : ∀ d ∈ payload ++ [luhnCheckDigit payload], d < 10 := by
      intro d hd
      rcases List.mem_append.mp hd with h | h
      · exact hdig d h
      · simpa using List.mem_singleton.mp h ▸ hc
    rw [hchar]
    rw [digitsOf_map_digitChar _ hall]
    refine ⟨by simp; omega, by simp; omega, ?_⟩
    have hrev : (payload ++ [luhnCheckDigit payload]).reverse =
        luhnCheckDigit payload :: payload.reverse := by simp
    rw [hrev]
    have hnc : ¬(luhnCheckDigit payload > 9) := by omega
    have hstep : luhnSumRight false (luhnCheckDigit payload :: payload.reverse) =
        luhnCheckDigit payload + luhnSumRight true payload.reverse := by
      simp [luhnSumRight, hnc]
    rw [hstep]
    simp only [luhnCheckDigit]
    omega

/-- Witness for C7: a too-short string is rejected; a 15-digit number built by
the check-digit construction is accepted. -/
theorem claim_C7_witness :
    luhn_checksum_ok "4111" = false ∧
    luhn_checksum_ok
      (String.mk (([4, 1, 1, 1, 1, 1, 1, 1, 1, 1, 1, 1, 1, 1] ++
        [luhnCheckDigit [4, 1, 1, 1, 1, 1, 1, 1, 1, 1, 1, 1, 1, 1]]).map Nat.digitChar)) = true := by
  constructor
  · exact (claim_C7 "4111").1 (by decide)
  · exact (claim_C7 "").2.2 [4, 1, 1, 1, 1, 1, 1, 1, 1, 1, 1, 1, 1, 1] (by decide) (by decide)
      (by decide)

/-! ## Claim C8 -/

theorem pyRepeat_length (k : List Nat) : ∀ n, (pyRepeat k n).length = n * k.length := by
  intro n
  induction n with
  | zero => simp [pyRepeat]
  | succ n ih => simp [pyRepeat, ih, Nat.succ_mul, Nat.add_comm]

theorem mem_pyRepeat (k : List Nat) : ∀ n x, x ∈ pyRepeat k n → x ∈ k := by
  intro n
  induction n with
  | zero => intro x hx; simp [pyRepeat] at hx
  | succ n ih =>
      intro x hx
      rcases List.mem_append.mp (by simpa [pyRepeat] using hx) with h | h
      · exact h
      · exact ih x h

/-- The text is never longer than the repeated key it is zipped with. -/
theorem length_le_pyRepeat (t k : List Nat) (hk : k ≠ []) :
    t.length ≤ (pyRepeat k (t.length / k.length + 1)).length := by
  rw [pyRepeat_length]
  have hL : 0 < k.length := List.length_pos.mpr hk
  have h2 := Nat.div_add_mod t.length k.length
  have h3 : t.length % k.length < k.length := Nat.mod_lt _ hL
  nlinarith

/-- XOR-ing twice against the same (sufficiently long) list is the
identity. -/
theorem zip_xor_involutive : ∀ (t r : List Nat), t.length ≤ r.length →
    (((t.zip r).map (fun ck => ck.1 ^^^ ck.2)).zip r).map (fun ck => ck.1 ^^^ ck.2) = t := by
  intro t
  induction t with
  | nil => intro r _; simp
  | cons a t ih =>
      intro r hr
      cases r with
      | nil => simp at hr
      | cons b r =>
          simp only [List.zip_cons_cons, List.map_cons]
          rw [Nat.xor_cancel_right]
          have := ih r (by simpa using hr)
          simp [this]

theorem encrypt_decrypt_length (t k : List Nat) (hk : k ≠ []) :
    (encrypt_decrypt t k).length = t.length := by
  simp only [encrypt_decrypt, List.length_map, List.length_zip]
  exact Nat.min_eq_left (length_le_pyRepeat t k hk)

/-- The XOR transform with a fixed nonempty key is an involution. -/
theorem encrypt_decrypt_involutive (t k : List Nat) (hk : k ≠ []) :
    encrypt_decrypt (encrypt_decrypt t k) k = t := by
  have hlen := encrypt_decrypt_length t k hk
  simp only [encrypt_decrypt] at hlen ⊢
  rw [hlen]
  exact zip_xor_involutive t _ (length_le_pyRepeat t k hk)

/-- Bytes produced by XOR-ing an ASCII text against an ASCII key stay
ASCII. -/
theorem encrypt_decrypt_ascii (t k : List Nat) (ht : ∀ c ∈ t, c < 128)
    (hkk : ∀ c ∈ k, c < 128) : ∀ b ∈ encrypt_decrypt t k, b < 128 := by
  intro b hb
  simp only [encrypt_decrypt, List.mem_map] at hb
  obtain ⟨⟨x, y⟩, hxy, rfl⟩ := hb
  obtain ⟨hx, hy⟩ := List.of_mem_zip hxy
  have hx' : x < 128 := ht x hx
  have hy' : y < 128 := hkk y (mem_pyRepeat k _ y hy)
  have := Nat.xor_lt_two_pow (n := 7) (by simpa using hx') (by simpa using hy')
  simpa using this

/-- UTF-8 encoding is the identity on ASCII byte lists. -/
theorem strEncode_ascii : ∀ (l : List Nat), (∀ c ∈ l, c < 128) → strEncode l = l := by
  intro l
  induction l with
  | nil => intro _; rfl
  | cons c l ih =>
      intro h
      have hc : c < 128 := h c (by simp)
      simp only [strEncode, List.map_cons, List.flatten_cons, utf8Bytes, if_pos hc]
      have := ih (fun x hx => h x (by simp [hx]))
      simpa [strEncode] using this

theorem b64Index_b64Char : ∀ n < 64, b64Index (b64Char n) = some n := by decide

theorem b64Char_ne_pad : ∀ n < 64, ¬(b64Char n = '=') := by decide

/-- Base64 decoding inverts base64 encoding on byte lists. -/
theorem b64_roundtrip : ∀ (bs : List Nat), (∀ b ∈ bs, b < 256) →
    b64decode (b64encode bs) = some bs := by
  intro bs
  induction bs using b64encode.induct with
  | case1 =>
      intro _
      rfl
  | case2 a =>
      intro h
      have ha : a < 256 := h a (by simp)
      have harith : a / 4 * 4 + a % 4 * 16 / 16 = a := by omega
      simp [b64encode, b64decode, b64Index_b64Char (a / 4) (by omega : a / 4 < 64),
        b64Index_b64Char (a % 4 * 16) (by omega : a % 4 * 16 < 64), harith]
      omega
  | case3 a b =>
      intro h
      have ha : a < 256 := h a (by simp)
      have hb : b < 256 := h b (by simp)
      have hy := b64Char_ne_pad (b % 16 * 4) (by omega : b % 16 * 4 < 64)
      have h1 : a / 4 * 4 + (a % 4 * 16 + b / 16) / 16 = a := by omega
      have h2 : (a % 4 * 16 + b / 16) % 16 * 16 + b % 16 * 4 / 4 = b := by omega
      simp [b64encode, b64decode,
        b64Index_b64Char (a / 4) (by omega : a / 4 < 64),
        b64Index_b64Char (a % 4 * 16 + b / 16) (by omega : a % 4 * 16 + b / 16 < 64),
        b64Index_b64Char (b % 16 * 4) (by omega : b % 16 * 4 < 64), hy, h1, h2]
      omega
  | case4 a b c rest ih =>
      intro h
      have ha : a < 256 := h a (by simp)
      have hb : b < 256 := h b (by simp)
      have hc : c < 256 := h c (by simp)
      have hrest : ∀ x ∈ rest, x < 256 := fun x hx => h x (by simp [hx])
      have hy := b64Char_ne_pad (b % 16 * 4 + c / 64) (by omega : b % 16 * 4 + c / 64 < 64)
      have hz := b64Char_ne_pad (c % 64) (by omega : c % 64 < 64)
      have h1 : a / 4 * 4 + (a % 4 * 16 + b / 16) / 16 = a := by omega
      have h2 : (a % 4 * 16 + b / 16) % 16 * 16 + (b % 16 * 4 + c / 64) / 4 = b := by omega
      have h3 : (b % 16 * 4 + c / 64) % 4 * 64 + c % 64 = c := by omega
      simp [b64encode, b64decode,
        b64Index_b64Char (a / 4) (by omega : a / 4 < 64),
        b64Index_b64Char (a % 4 * 16 + b / 16) (by omega : a % 4 * 16 + b / 16 < 64),
        b64Index_b64Char (b % 16 * 4 + c / 64) (by omega : b % 16 * 4 + c / 64 < 64),
        b64Index_b64Char (c % 64) (by omega : c % 64 < 64),
        hy, hz, h1, h2, h3, ih hrest]

/-- The fixed XOR key is nonempty ASCII. -/
theorem XOR_KEY_ascii : XOR_KEY ≠ [] ∧ ∀ c ∈ XOR_KEY, c < 128 := by decide

/-- C8: the encrypt strategy round-trips — the XOR transform with the fixed
key is an involution, and base64-decoding the produced string yields exactly
the XOR bytes, so decoding plus one more XOR recovers the original matched
substring (matched substrings are ASCII, on which `str.encode` is the
identity). -/
theorem claim_C8 (text : List Nat) (h : ∀ c ∈ text, c < 128) :
    encrypt_decrypt (encrypt_decrypt text XOR_KEY) XOR_KEY = text
  ∧ b64decode (b64encode (strEncode (encrypt_decrypt text XOR_KEY))) =
      some (encrypt_decrypt text XOR_KEY)
  ∧ (b64decode (b64encode (strEncode (encrypt_decrypt text XOR_KEY)))).map
      (fun bytes => encrypt_decrypt bytes XOR_KEY) = some text := by
  have hkey := XOR_KEY_ascii
  have hasc : ∀ b ∈ encrypt_decrypt text XOR_KEY, b < 128 :=
    encrypt_decrypt_ascii text XOR_KEY h hkey.2
  have henc : strEncode (encrypt_decrypt text XOR_KEY) = encrypt_decrypt text XOR_KEY :=
    strEncode_ascii _ hasc
  have hround : b64decode (b64encode (strEncode (encrypt_decrypt text XOR_KEY))) =
      some (encrypt_decrypt text XOR_KEY) := by
    rw [henc]
    exact b64_roundtrip _ (fun b hb => Nat.lt_of_lt_of_le (hasc b hb) (by norm_num))
  refine ⟨encrypt_decrypt_involutive text XOR_KEY hkey.1, hround, ?_⟩
  rw [hround]
  simp [encrypt_decrypt_involutive text XOR_KEY hkey.1]

/-- Witness for C8: a concrete card number round-trips through XOR plus
base64 and back. -/
theorem claim_C8_witness :
    (b64decode (b64encode (strEncode
        (encrypt_decrypt ("4111111111111111".data.map Char.toNat) XOR_KEY)))).map
      (fun bytes => encrypt_decrypt bytes XOR_KEY) =
      some ("4111111111111111".data.map Char.toNat) :=
  (claim_C8 ("4111111111111111".data.map Char.toNat) (by decide)).2.2

/-! ## Claim C5 -/

/-- C5 (actual behaviour at the claimed input): processing the scenario cell
with all ten categories enabled, the partial strategy, default patterns and a
fresh (empty) run context yields

* email count 1, but the local part becomes the literal `user` — the empty
  dict is falsy, so the `if context and isinstance(context, dict)` guard
  skips pseudonymization and never populates the context;
* phone count 1 with digits `98******10` as claimed;
* person count 1, but the person match is `Contact John Smith` (the regex
  also captures the preceding capitalized word), and with the falsy context
  it is masked by the first-letter fallback, not pseudonymized;
* the context comes back still empty.

With a context whose dict is non-empty (so the truthiness guard passes), the
email local part does become `user1` with the domain preserved, and the person
match becomes three pseudonyms `user1 user2 user3` — not two — allocated by
the person-category pseudonymizer. -/
theorem claim_C5_behaviour :
    process_text scenarioCell noOverrides allPartialConfigs (some {}) =
      ("C****** J*** S**** at user@example.com, phone +91-98******10",
        { email := 1, phone := 1, person := 1 }, some {})
  ∧ process_text scenarioCell noOverrides allPartialConfigs (some seededCtx) =
      ("user1 user2 user3 at user1@example.com, phone +91-98******10",
        { email := 1, phone := 1, person := 1 },
        some { email_anonymizer := some ⟨[("john.smith", "user1")], 2⟩,
               person_anonymizer := some ⟨[("Contact", "user1"), ("John", "user2"),
                 ("Smith", "user3")], 4⟩ }) := by
  constructor
  · decide
  · decide

/-! ## Claim C6: supporting lemmas -/

/-- The fuel-based digit extraction agrees with `Nat.digits` in base 10. -/
theorem natReprDigits_eq_digits : ∀ (fuel n : Nat), n ≤ fuel →
    natReprDigits fuel n = Nat.digits 10 n := by
  intro fuel
  induction fuel with
  | zero =>
      intro n hn
      have : n = 0 := by omega
      subst this
      simp [natReprDigits]
  | succ fuel ih =>
      intro n hn
      by_cases h0 : n = 0
      · subst h0
        simp [natReprDigits]
      · have hlt : n / 10 < n := Nat.div_lt_self (by omega) (by norm_num)
        rw [show natReprDigits (fuel + 1) n = n % 10 :: natReprDigits fuel (n / 10) by
          simp [natReprDigits, h0]]
        rw [ih (n / 10) (by omega)]
        rw [Nat.digits_def' (by norm_num : 1 < 10) (by omega : 0 < n)]

/-- Parsing the decimal rendering returns the number: `natRepr` has a left
inverse, hence is injective. -/
theorem parseNat_natRepr (n : Nat) : parseNat (natRepr n) = n := by
  have hdig : natReprDigits n n = Nat.digits 10 n := natReprDigits_eq_digits n n le_rfl
  have hdata : (natRepr n).data = (Nat.digits 10 n).reverse.map Nat.digitChar := by
    simp [natRepr, hdig, List.asString]
  simp only [parseNat, hdata, List.map_map]
  have hmap : (Nat.digits 10 n).reverse.map (charToDigit ∘ Nat.digitChar) =
      (Nat.digits 10 n).reverse := by
    rw [List.map_congr_left, List.map_id]
    intro d hd
    have hd10 : d < 10 := Nat.digits_lt_base (by norm_num) (List.mem_reverse.mp hd)
    simpa using charToDigit_digitChar d hd10
  rw [hmap, List.reverse_reverse, Nat.ofDigits_digits]

theorem natRepr_injective {a b : Nat} (h : natRepr a = natRepr b) : a = b := by
  rw [← parseNat_natRepr a, ← parseNat_natRepr b, h]

/-- Two `user<i>` aliases agree only for the same counter value. -/
theorem userAlias_injective {a b : Nat} (h : "user" ++ natRepr a = "user" ++ natRepr b) :
    a = b := by
  apply natRepr_injective
  have hd : ("user" ++ natRepr a).data = ("user" ++ natRepr b).data := by rw [h]
  simp only [String.data_append] at hd
  exact String.ext (List.append_cancel_left hd)

/-- Lookup in an alias table finds the first occurrence's alias. -/
theorem lookup_aliasTableFrom_of_mem : ∀ (seen : List String) (i : Nat) (k : String),
    k ∈ seen →
    (aliasTableFrom i seen).lookup k = some ("user" ++ natRepr (i + idxOf k seen + 1)) := by
  intro seen
  induction seen with
  | nil => intro i k hk; simp at hk
  | cons a rest ih =>
      intro i k hk
      by_cases hka : k = a
      · subst hka
        simp [aliasTableFrom, idxOf, List.lookup]
      · have hkr : k ∈ rest := by
          rcases List.mem_cons.mp hk with h | h
          · exact absurd h hka
          · exact h
        have hne : (k == a) = false := by simp [hka]
        simp only [aliasTableFrom, List.lookup, hne, idxOf, if_neg hka]
        rw [ih (i + 1) k hkr]
        have : i + 1 + idxOf k rest + 1 = i + (idxOf k rest + 1) + 1 := by omega
        rw [this]

theorem lookup_aliasTableFrom_of_not_mem : ∀ (seen : List String) (i : Nat) (k : String),
    k ∉ seen → (aliasTableFrom i seen).lookup k = none := by
  intro seen
  induction seen with
  | nil => intro i k _; rfl
  | cons a rest ih =>
      intro i k hk
      have hka : ¬(k = a) := fun h => hk (by simp [h])
      have hne : (k == a) = false := by simp [hka]
      simp only [aliasTableFrom, List.lookup, hne]
      exact ih (i + 1) k (fun h => hk (by simp [h]))

theorem aliasTableFrom_append : ∀ (l1 l2 : List String) (i : Nat),
    aliasTableFrom i (l1 ++ l2) = aliasTableFrom i l1 ++ aliasTableFrom (i + l1.length) l2 := by
  intro l1
  induction l1 with
  | nil => intro l2 i; simp [aliasTableFrom]
  | cons a rest ih =>
      intro l2 i
      have h1 : aliasTableFrom i ((a :: rest) ++ l2) =
          (a, "user" ++ natRepr (i + 1)) :: aliasTableFrom (i + 1) (rest ++ l2) := rfl
      have h2 : aliasTableFrom i (a :: rest) =
          (a, "user" ++ natRepr (i + 1)) :: aliasTableFrom (i + 1) rest := rfl
      rw [h1, h2, ih l2 (i + 1)]
      have hidx : i + 1 + rest.length = i + (a :: rest).length := by
        simp only [List.length_cons]
        omega
      rw [hidx]
      rfl

/-- State invariant: the mapping is exactly the alias table of the first-seen
keys, and the counter is one past their number. -/
def Inv (p : EmailPseudonymizer) (seen : List String) : Prop :=
  p.mapping = aliasTable seen ∧ p.counter = seen.length + 1

theorem pseudonymize_eq_some {p : EmailPseudonymizer} {k a : String}
    (hl : p.mapping.lookup k = some a) : p.pseudonymize k = (a, p) := by
  simp [EmailPseudonymizer.pseudonymize, hl]

theorem pseudonymize_eq_none {p : EmailPseudonymizer} {k : String}
    (hl : p.mapping.lookup k = none) :
    p.pseudonymize k = ("user" ++ natRepr p.counter,
      ⟨p.mapping ++ [(k, "user" ++ natRepr p.counter)], p.counter + 1⟩) := by
  simp [EmailPseudonymizer.pseudonymize, hl]

theorem pseudonymize_mem {p : EmailPseudonymizer} {seen : List String} (hInv : Inv p seen)
    {k : String} (hk : k ∈ seen) :
    p.pseudonymize k = ("user" ++ natRepr (idxOf k seen + 1), p) := by
  have hl : p.mapping.lookup k = some ("user" ++ natRepr (idxOf k seen + 1)) := by
    rw [hInv.1]
    have := lookup_aliasTableFrom_of_mem seen 0 k hk
    simpa [aliasTable] using this
  rw [pseudonymize_eq_some hl]

theorem pseudonymize_not_mem {p : EmailPseudonymizer} {seen : List String} (hInv : Inv p seen)
    {k : String} (hk : k ∉ seen) :
    p.pseudonymize k = ("user" ++ natRepr (seen.length + 1),
      ⟨aliasTable (seen ++ [k]), seen.length + 2⟩) ∧
    Inv (p.pseudonymize k).2 (seen ++ [k]) := by
  have hl : p.mapping.lookup k = none := by
    rw [hInv.1]
    exact lookup_aliasTableFrom_of_not_mem seen 0 k hk
  have htbl : aliasTable (seen ++ [k]) =
      aliasTable seen ++ [(k, "user" ++ natRepr (seen.length + 1))] := by
    simp [aliasTable, aliasTableFrom_append, aliasTableFrom]
  have hstep : p.pseudonymize k = ("user" ++ natRepr (seen.length + 1),
      ⟨aliasTable (seen ++ [k]), seen.length + 2⟩) := by
    rw [pseudonymize_eq_none hl, hInv.1, hInv.2, htbl]
  refine ⟨hstep, ?_⟩
  rw [hstep]
  exact ⟨rfl, by simp⟩

theorem seenAfter_ext : ∀ (calls seen : List String),
    ∃ ext, seenAfter seen calls = seen ++ ext := by
  intro calls
  induction calls with
  | nil => intro seen; exact ⟨[], by simp [seenAfter]⟩
  | cons k ks ih =>
      intro seen
      by_cases hk : k ∈ seen
      · obtain ⟨ext, hext⟩ := ih seen
        exact ⟨ext, by simp [seenAfter, hk, hext]⟩
      · obtain ⟨ext, hext⟩ := ih (seen ++ [k])
        refine ⟨[k] ++ ext, ?_⟩
        simp only [seenAfter, if_neg hk]
        rw [hext, List.append_assoc]

theorem mem_seenAfter : ∀ (calls seen : List String) (k : String), k ∈ seen →
    k ∈ seenAfter seen calls := by
  intro calls seen k hk
  obtain ⟨ext, hext⟩ := seenAfter_ext calls seen
  rw [hext]
  exact List.mem_append_left _ hk

theorem mem_call_seenAfter : ∀ (calls seen : List String) (k : String), k ∈ calls →
    k ∈ seenAfter seen calls := by
  intro calls
  induction calls with
  | nil => intro seen k hk; simp at hk
  | cons a ks ih =>
      intro seen k hk
      rcases List.mem_cons.mp hk with rfl | hks
      · by_cases ha : k ∈ seen
        · exact mem_seenAfter (k :: ks) seen k ha
        · show k ∈ seenAfter (if k ∈ seen then seen else seen ++ [k]) ks
          rw [if_neg ha]
          exact mem_seenAfter ks (seen ++ [k]) k (by simp)
      · show k ∈ seenAfter (if a ∈ seen then seen else seen ++ [a]) ks
        exact ih _ k hks

theorem seenAfter_nodup : ∀ (calls seen : List String), seen.Nodup →
    (seenAfter seen calls).Nodup := by
  intro calls
  induction calls with
  | nil => intro seen h; exact h
  | cons k ks ih =>
      intro seen h
      show (seenAfter (if k ∈ seen then seen else seen ++ [k]) ks).Nodup
      by_cases hk : k ∈ seen
      · rw [if_pos hk]
        exact ih seen h
      · rw [if_neg hk]
        refine ih _ ?_
        rw [List.nodup_append]
        refine ⟨h, List.nodup_singleton k, ?_⟩
        intro a ha hb
        rw [List.mem_singleton.mp hb] at ha
        exact hk ha

theorem idxOf_append_left : ∀ (l1 l2 : List String) (k : String), k ∈ l1 →
    idxOf k (l1 ++ l2) = idxOf k l1 := by
  intro l1
  induction l1 with
  | nil => intro l2 k hk; simp at hk
  | cons a rest ih =>
      intro l2 k hk
      by_cases hka : k = a
      · simp [idxOf, hka]
      · have hkr : k ∈ rest := by
          rcases List.mem_cons.mp hk with h | h
          · exact absurd h hka
          · exact h
        simp [idxOf, hka, ih l2 k hkr]

theorem idxOf_append_not_mem : ∀ (l1 l2 : List String) (k : String), k ∉ l1 →
    idxOf k (l1 ++ l2) = l1.length + idxOf k l2 := by
  intro l1
  induction l1 with
  | nil => intro l2 k _; simp [idxOf]
  | cons a rest ih =>
      intro l2 k hk
      have hka : ¬(k = a) := fun h => hk (by simp [h])
      have h1 : idxOf k ((a :: rest) ++ l2) = idxOf k (rest ++ l2) + 1 := by
        show idxOf k (a :: (rest ++ l2)) = idxOf k (rest ++ l2) + 1
        simp [idxOf, hka]
      rw [h1, ih l2 k (fun h => hk (by simp [h]))]
      simp only [List.length_cons]
      omega

theorem idxOf_lt_length : ∀ (l : List String) (k : String), k ∈ l →
    idxOf k l < l.length := by
  intro l
  induction l with
  | nil => intro k hk; simp at hk
  | cons a rest ih =>
      intro k hk
      by_cases hka : k = a
      · simp [idxOf, hka]
      · have hkr : k ∈ rest := by
          rcases List.mem_cons.mp hk with h | h
          · exact absurd h hka
          · exact h
        simp only [idxOf, if_neg hka, List.length_cons]
        exact Nat.succ_lt_succ (ih k hkr)

theorem get?_idxOf : ∀ (l : List String) (k : String), k ∈ l →
    l.get? (idxOf k l) = some k := by
  intro l
  induction l with
  | nil => intro k hk; simp at hk
  | cons a rest ih =>
      intro k hk
      by_cases hka : k = a
      · subst hka
        simp [idxOf]
      · have hkr : k ∈ rest := by
          rcases List.mem_cons.mp hk with h | h
          · exact absurd h hka
          · exact h
        simp only [idxOf, if_neg hka, List.get?_cons_succ]
        exact ih k hkr

theorem idxOf_get?_of_nodup : ∀ (l : List String), l.Nodup → ∀ (i : Nat) (k : String),
    l.get? i = some k → idxOf k l = i := by
  intro l
  induction l with
  | nil => intro _ i k h; simp at h
  | cons a rest ih =>
      intro hnd i k h
      cases i with
      | zero =>
          have : k = a := by simpa using h.symm
          simp [idxOf, this]
      | succ i =>
          rw [List.get?_cons_succ] at h
          have hkr : k ∈ rest := List.get?_mem h
          have hane : a ∉ rest := (List.nodup_cons.mp hnd).1
          have hka : ¬(k = a) := fun he => hane (he ▸ hkr)
          rw [show idxOf k (a :: rest) = idxOf k rest + 1 by simp [idxOf, hka]]
          rw [ih (List.nodup_cons.mp hnd).2 i k h]

/-- Master characterization: starting from a state satisfying the invariant,
every call's output is `user<i+1>` where `i` is its key's position in the
final first-seen order, and the invariant is preserved. -/
theorem runPseudo_master : ∀ (calls : List String) (p : EmailPseudonymizer)
    (seen : List String), Inv p seen →
    runPseudo p calls =
      calls.map (fun k => "user" ++ natRepr (idxOf k (seenAfter seen calls) + 1))
    ∧ Inv (statePseudo p calls) (seenAfter seen calls) := by
  intro calls
  induction calls with
  | nil =>
      intro p seen hInv
      exact ⟨rfl, hInv⟩
  | cons k ks ih =>
      intro p seen hInv
      by_cases hk : k ∈ seen
      · have hsA : seenAfter seen (k :: ks) = seenAfter seen ks := by
          show seenAfter (if k ∈ seen then seen else seen ++ [k]) ks = seenAfter seen ks
          rw [if_pos hk]
        have hstep := pseudonymize_mem hInv hk
        obtain ⟨hrunks, hInvks⟩ := ih p seen hInv
        refine ⟨?_, ?_⟩
        · show (p.pseudonymize k).1 :: runPseudo (p.pseudonymize k).2 ks = _
          rw [List.map_cons, hstep]
          congr 1
          · rw [hsA]
            obtain ⟨ext, hext⟩ := seenAfter_ext ks seen
            rw [hext, idxOf_append_left _ _ _ hk]
          · rw [hrunks, hsA]
        · show Inv (statePseudo (p.pseudonymize k).2 ks) _
          rw [hstep, hsA]
          exact hInvks
      · have hsA : seenAfter seen (k :: ks) = seenAfter (seen ++ [k]) ks := by
          show seenAfter (if k ∈ seen then seen else seen ++ [k]) ks = _
          rw [if_neg hk]
        obtain ⟨hstep, hInv1⟩ := pseudonymize_not_mem hInv hk
        obtain ⟨hrunks, hInvks⟩ := ih (p.pseudonymize k).2 (seen ++ [k]) hInv1
        refine ⟨?_, ?_⟩
        · show (p.pseudonymize k).1 :: runPseudo (p.pseudonymize k).2 ks = _
          rw [List.map_cons]
          congr 1
          · rw [hstep, hsA]
            obtain ⟨ext, hext⟩ := seenAfter_ext ks (seen ++ [k])
            rw [hext, idxOf_append_left _ _ _ (by simp),
              idxOf_append_not_mem seen [k] k hk]
            simp [idxOf]
          · rw [hrunks, hsA]
        · show Inv (statePseudo (p.pseudonymize k).2 ks) _
          rw [hsA]
          exact hInvks

/-! ## Claim C6 -/

/-- C6: on one pseudonymizer instance, calls with the same key always return
the same alias; calls with distinct keys return distinct aliases; and the
i-th distinct key in first-seen order (0-based `i`) is recorded with alias
`user<i+1>`. -/
theorem claim_C6 (calls : List String) :
    (∀ (i j : Nat) (k : String), calls.get? i = some k → calls.get? j = some k →
        (runPseudo EmailPseudonymizer.init calls).get? i =
          (runPseudo EmailPseudonymizer.init calls).get? j)
  ∧ (∀ (i j : Nat) (k1 k2 : String), calls.get? i = some k1 → calls.get? j = some k2 →
        k1 ≠ k2 →
        (runPseudo EmailPseudonymizer.init calls).get? i ≠
          (runPseudo EmailPseudonymizer.init calls).get? j)
  ∧ (∀ (i : Nat) (k : String), (firstSeen calls).get? i = some k →
        (statePseudo EmailPseudonymizer.init calls).mapping.lookup k =
          some ("user" ++ natRepr (i + 1))) := by
  have hInv0 : Inv EmailPseudonymizer.init [] := ⟨rfl, rfl⟩
  obtain ⟨hrun, hInv⟩ := runPseudo_master calls EmailPseudonymizer.init [] hInv0
  have hL : seenAfter [] calls = firstSeen calls := rfl
  refine ⟨?_, ?_, ?_⟩
  · intro i j k hi hj
    rw [hrun, List.get?_map, List.get?_map, hi, hj]
  · intro i j k1 k2 hi hj hne
    rw [hrun, List.get?_map, List.get?_map, hi, hj]
    intro hcontra
    simp only [Option.map_some', Option.some.injEq] at hcontra
    have hidx : idxOf k1 (seenAfter [] calls) = idxOf k2 (seenAfter [] calls) := by
      have := userAlias_injective hcontra
      omega
    have hk1 : k1 ∈ seenAfter [] calls :=
      mem_call_seenAfter calls [] k1 (List.get?_mem hi)
    have hk2 : k2 ∈ seenAfter [] calls :=
      mem_call_seenAfter calls [] k2 (List.get?_mem hj)
    have hg1 := get?_idxOf _ k1 hk1
    have hg2 := get?_idxOf _ k2 hk2
    rw [hidx, hg2] at hg1
    exact hne (by simpa using hg1.symm)
  · intro i k hik
    have hkL : k ∈ seenAfter [] calls := by
      rw [hL]
      exact List.get?_mem hik
    have hnd : (seenAfter [] calls).Nodup := seenAfter_nodup calls [] List.nodup_nil
    have hidx : idxOf k (seenAfter [] calls) = i :=
      idxOf_get?_of_nodup _ hnd i k (by rw [hL]; exact hik)
    rw [hInv.1]
    have := lookup_aliasTableFrom_of_mem (seenAfter [] calls) 0 k hkL
    rw [show aliasTable (seenAfter [] calls) = aliasTableFrom 0 (seenAfter [] calls) from rfl,
      this, hidx]
    norm_num

/-- Witness for C6: on the call sequence alice, bob, alice the first and third
outputs agree, the first two differ, and the second distinct key is recorded
as user2. -/
theorem claim_C6_witness :
    ((runPseudo EmailPseudonymizer.init ["alice", "bob", "alice"]).get? 0 =
      (runPseudo EmailPseudonymizer.init ["alice", "bob", "alice"]).get? 2)
  ∧ ((runPseudo EmailPseudonymizer.init ["alice", "bob", "alice"]).get? 0 ≠
      (runPseudo EmailPseudonymizer.init ["alice", "bob", "alice"]).get? 1)
  ∧ (statePseudo EmailPseudonymizer.init ["alice", "bob", "alice"]).mapping.lookup "bob" =
      some ("user" ++ natRepr 2) :=
  ⟨(claim_C6 ["alice", "bob", "alice"]).1 0 2 "alice" (by decide) (by decide),
   (claim_C6 ["alice", "bob", "alice"]).2.1 0 1 "alice" "bob" (by decide) (by decide)
     (by decide),
   (claim_C6 ["alice", "bob", "alice"]).2.2 1 "bob" (by decide)⟩

/-! ## Claim C4 -/

/-- C4 counterexample: the alias spaces of the two categories are not
disjoint.  Starting from a truthy run context, one email pseudonymization of
`john` followed by one person pseudonymization of `John` against the same
context produce the identical alias string `user1` in both categories — each
category's `EmailPseudonymizer` starts its own `user<n>` sequence at 1. -/
theorem claim_C4_counterexample :
    (ctxEmailPseudo seededCtx "john").1 = "user1" ∧
    (ctxPersonPseudo (ctxEmailPseudo seededCtx "john").2 "John").1 = "user1" := by
  constructor
  · decide
  · decide

/-- C4 (amended): within one run context the two pseudonymizable categories
evolve independently — for every interleaved call sequence, the email outputs
and the email anonymizer state depend only on the subsequence of email calls,
and likewise for person calls; each category draws from its own private
pseudonymizer.  (The alias strings themselves are not disjoint across
categories: both sequences are `user1`, `user2`, ..., as the counterexample
shows.) -/
theorem claim_C4_amended (ops : List PseudoOp) (c0 : RunCtx) :
    emailOutputs c0 ops =
      runPseudo (c0.email_anonymizer.getD EmailPseudonymizer.init) (emailKeys ops)
  ∧ personOutputs c0 ops =
      runPseudo (c0.person_anonymizer.getD EmailPseudonymizer.init) (personKeys ops)
  ∧ (runCtxState c0 ops).email_anonymizer.getD EmailPseudonymizer.init =
      statePseudo (c0.email_anonymizer.getD EmailPseudonymizer.init) (emailKeys ops)
  ∧ (runCtxState c0 ops).person_anonymizer.getD EmailPseudonymizer.init =
      statePseudo (c0.person_anonymizer.getD EmailPseudonymizer.init) (personKeys ops) := by
  induction ops generalizing c0 with
  | nil => exact ⟨rfl, rfl, rfl, rfl⟩
  | cons op ops ih =>
      cases op with
      | email k =>
          obtain ⟨ih1, ih2, ih3, ih4⟩ := ih (applyOp c0 (.email k)).2
          refine ⟨?_, ?_, ?_, ?_⟩
          · show (applyOp c0 (.email k)).1 :: emailOutputs (applyOp c0 (.email k)).2 ops = _
            rw [ih1]
            simp [applyOp, ctxEmailPseudo, runPseudo, emailKeys]
          · show personOutputs (applyOp c0 (.email k)).2 ops = _
            rw [ih2]
            simp [applyOp, ctxEmailPseudo, personKeys]
          · show (runCtxState (applyOp c0 (.email k)).2 ops).email_anonymizer.getD _ = _
            rw [ih3]
            simp [applyOp, ctxEmailPseudo, statePseudo, emailKeys]
          · show (runCtxState (applyOp c0 (.email k)).2 ops).person_anonymizer.getD _ = _
            rw [ih4]
            simp [applyOp, ctxEmailPseudo, personKeys]
      | person k =>
          obtain ⟨ih1, ih2, ih3, ih4⟩ := ih (applyOp c0 (.person k)).2
          refine ⟨?_, ?_, ?_, ?_⟩
          · show emailOutputs (applyOp c0 (.person k)).2 ops = _
            rw [ih1]
            simp [applyOp, ctxPersonPseudo, emailKeys]
          · show (applyOp c0 (.person k)).1 :: personOutputs (applyOp c0 (.person k)).2 ops = _
            rw [ih2]
            simp [applyOp, ctxPersonPseudo, runPseudo, personKeys]
          · show (runCtxState (applyOp c0 (.person k)).2 ops).email_anonymizer.getD _ = _
            rw [ih3]
            simp [applyOp, ctxPersonPseudo, emailKeys]
          · show (runCtxState (applyOp c0 (.person k)).2 ops).person_anonymizer.getD _ = _
            rw [ih4]
            simp [applyOp, ctxPersonPseudo, statePseudo, personKeys]

end Pii
